import Mathlib

/-!
Verification development for the truss durable agent execution core.

The Python sources are shallowly embedded as pure Lean functions:

* `src/truss/data_models.py`      → the `Message` / `ToolCall` / `ToolCallResult`
  pydantic models and their construction-time validation;
* `src/truss/activities/tool_activities.py` → `execute_tool_activity`;
* `src/truss/activities/llm_activities.py`  → `llm_activity` (stream
  accumulation, final message assembly, atomic persistence);
* `src/truss/workflows/agent_workflow.py`   → `executeWorkflow`
  (the `TemporalAgentExecutionWorkflow.execute` run method), modelled as a
  deterministic function of an activity oracle that supplies the result of
  every activity invocation, producing the workflow outcome together with the
  ordered trace of activity invocations.

External collaborators (the json library, the Temporal runtime defaults, the
storage engine, tool HTTP handlers) enter as explicit oracle parameters or as
faithful models of their documented behaviour.
-/

namespace Truss

/-! ## JSON values

Python values handled by the json library (`json.loads` / `json.dumps`).
Numbers are restricted to integers; the claims under study never depend on
floating point payloads. -/

inductive Json where
  | null
  | bool (b : Bool)
  | num (n : Int)
  | str (s : String)
  | arr (xs : List Json)
  | obj (fields : List (String × Json))
deriving Repr

/-- Python `str()` applied to a scalar json-like value (the code only ever
applies it to values that are not dicts and not lists). -/
def pyStr : Json → String
  | .null => "None"
  | .bool true => "True"
  | .bool false => "False"
  | .num n => toString n
  | .str s => s
  | .arr _ => ""
  | .obj _ => ""

/-! ## String helpers

`String.toLower` and substring search re-implemented over character lists so
that concrete instances reduce inside the kernel. -/

def lowerString (s : String) : String := String.mk (s.data.map Char.toLower)

def containsSubAux (pat : List Char) : List Char → Bool
  | [] => pat.isEmpty
  | c :: rest => pat.isPrefixOf (c :: rest) || containsSubAux pat rest

/-- Python `pat in s` on strings: `pat` occurs as a contiguous substring of `s`. -/
def containsSub (s pat : String) : Bool := containsSubAux pat.data s.data

/-! ## Data models (`src/truss/data_models.py`)

The pydantic models.  The `role` field of `Message` is `Literal["system",
"user", "assistant", "tool"]`; every other `Message` field is `Optional` with
default `None` and the model declares no validators, so construction checks
the role literal and nothing else (lines 26-35 of the source). -/

inductive Role where
  | system
  | user
  | assistant
  | tool
deriving Repr, DecidableEq

/-- Model `ToolCall` (data_models.py lines 38-43): `id : str`, `name : str`,
`arguments : Dict[str, Any]`. -/
structure ToolCall where
  id : String
  name : String
  arguments : List (String × Json)
deriving Repr

/-- pydantic validation of a `ToolCall` construction: `name` must be a
non-null string and `arguments` must be a mapping; `id` defaults to a fresh
uuid when missing, but the call sites under study always supply it. -/
def ToolCall.validate (id : String) (name : Option String) (arguments : Json) :
    Option ToolCall :=
  match name, arguments with
  | some n, .obj fields => some ⟨id, n, fields⟩
  | _, _ => none

/-- Model `Message` (data_models.py lines 26-35). -/
structure Message where
  role : Role
  content : Option String := none
  tool_calls : Option (List ToolCall) := none
  tool_call_id : Option String := none
deriving Repr

/-- The role literal check performed by pydantic on
`Literal["system", "user", "assistant", "tool"]`. -/
def parseRole : String → Option Role
  | "system" => some .system
  | "user" => some .user
  | "assistant" => some .assistant
  | "tool" => some .tool
  | _ => none

/-- pydantic validation of a `Message` construction, as the source declares
it: the role string must be one of the four literals; `content`,
`tool_calls` and `tool_call_id` are optional fields with default `None` and
no validators constrain their combinations. -/
def Message.validate (role : String) (content : Option String)
    (tool_calls : Option (List ToolCall)) (tool_call_id : Option String) :
    Option Message :=
  match parseRole role with
  | some r => some ⟨r, content, tool_calls, tool_call_id⟩
  | none => none

/-- Model `ToolCallResult` (data_models.py lines 46-50).  The declared type of
`content` is `str | Dict[str, Any]`, but both branches of the activity that
produces it yield a string (`json.dumps(...)` or `str(...)`), so the string
form suffices for the code under study. -/
structure ToolCallResult where
  tool_call_id : String
  content : String
deriving Repr, DecidableEq

/-- The role-dependent invariants the specification ascribes to `Message`
construction: a `tool` message has non-null `tool_call_id` and non-null
`content`; an `assistant` message has at least one of `content`,
`tool_calls`; `system` and `user` messages have non-null `content` and no
tool fields. -/
def roleInvariantsHold (m : Message) : Bool :=
  match m.role with
  | .tool => m.tool_call_id.isSome && m.content.isSome
  | .assistant => m.content.isSome || m.tool_calls.isSome
  | .system => m.content.isSome && m.tool_calls.isNone && m.tool_call_id.isNone
  | .user => m.content.isSome && m.tool_calls.isNone && m.tool_call_id.isNone

/-- Claim C7 as stated: every `Message` that passes construction-time
validation satisfies the role-dependent invariants (equivalently, any input
violating them fails validation). -/
def MessageInvariantClaim : Prop :=
  ∀ role content tool_calls tool_call_id m,
    Message.validate role content tool_calls tool_call_id = some m →
    roleInvariantsHold m = true

/-! ## Tool dispatch activity (`src/truss/activities/tool_activities.py`)

`execute_tool_activity` routes a `ToolCall` to the handler registered under
its name.  temporalio's `ApplicationError(message)` constructor defaults
`non_retryable` to `False` (an `ApplicationError` raised without the flag is
retried by the engine under the caller's retry policy); every raise site in
this module passes only a message, so the default applies. -/

structure ApplicationError where
  message : String
  nonRetryable : Bool := false
deriving Repr, DecidableEq

/-- A Python tool coroutine awaited with keyword arguments: it either raises
(an exception rendered as a message string) or returns a Python value.  The
two registered handlers perform external HTTP I/O and are therefore supplied
as oracle parameters. -/
def ToolHandler := List (String × Json) → Except String Json

/-- The registry literal of tool_activities.py lines 118-121: insertion order
`web_search`, `get_stock_price`; the handler bodies are oracle parameters. -/
def TOOL_REGISTRY (web_search get_stock_price : ToolHandler) :
    List (String × ToolHandler) :=
  [("web_search", web_search), ("get_stock_price", get_stock_price)]

/-- The runtime shape of `tool_call.arguments` as the activity inspects it
(tool_activities.py lines 160-165): either a JSON string or a mapping. -/
inductive PyArgs where
  | str (s : String)
  | map (fields : List (String × Json))
deriving Repr

/-- The `tool_call` argument of the activity, with the runtime argument shape. -/
structure ToolCallArg where
  id : String
  name : String
  arguments : PyArgs
deriving Repr

/-- Result serialisation (tool_activities.py lines 178-181):
`json.dumps(result)` when the value is a dict or a list, `str(result)`
otherwise. -/
def serializeResult (dumps : Json → String) : Json → String
  | .obj fields => dumps (.obj fields)
  | .arr xs => dumps (.arr xs)
  | v => pyStr v

/-- Shallow embedding of `execute_tool_activity` (tool_activities.py lines
127-183).  `loads` models `json.loads` (`none` = raise), `dumps` models
`json.dumps`, `registry` models `TOOL_REGISTRY`. -/
def execute_tool_activity (loads : String → Option Json) (dumps : Json → String)
    (registry : List (String × ToolHandler)) (tool_call : ToolCallArg) :
    Except ApplicationError ToolCallResult :=
  -- 1. resolve the tool implementation
  match registry.lookup tool_call.name with
  | none => .error { message := "Tool '" ++ tool_call.name ++ "' is not registered." }
  | some tool_fn =>
    -- 2. normalise arguments: JSON string is parsed, mapping is shallow-copied
    let kwargs? : Option Json :=
      match tool_call.arguments with
      | .str s => loads s
      | .map fields => some (.obj fields)
    match kwargs? with
    | none => .error { message := "Invalid JSON arguments for tool call" }
    | some kwargsVal =>
      -- 3. `await tool_fn(**kwargs)`: `**` requires a mapping; any exception
      --    (including the unpacking TypeError) is wrapped as execution failure
      let callResult : Except String Json :=
        match kwargsVal with
        | .obj fields => tool_fn fields
        | _ => .error "argument after ** must be a mapping"
      match callResult with
      | .error exc =>
        .error { message := "Tool '" ++ tool_call.name ++ "' execution failed: " ++ exc }
      | .ok result =>
        -- 4. serialise and package
        .ok { tool_call_id := tool_call.id, content := serializeResult dumps result }

/-- True exactly on the values the `isinstance(result, (dict, list))` test of
tool_activities.py line 178 accepts. -/
def isMappingOrList : Json → Bool
  | .obj _ => true
  | .arr _ => true
  | _ => false

/-! ## LLM streaming activity (`src/truss/activities/llm_activities.py`)

`llm_activity` folds the provider chunk stream into an accumulator state,
builds the final assistant `Message`, persists it via
`storage.create_run_step_from_message(run_id, final_message)` and returns it.
Redis chunk publishing and heartbeats are effect-only (no data flows back
into the activity) and are not modelled.  The step log of the storage engine
is threaded explicitly as a list of `(run_id, message)` rows. -/

/-- Shape of `choices[0].delta.tool_calls[*].function`. -/
structure FunctionDelta where
  name : Option String := none
  arguments : Option String := none
deriving Repr

/-- One entry of `choices[0].delta.tool_calls`. -/
structure ToolCallDelta where
  id : Option String := none
  function : Option FunctionDelta := none
deriving Repr

/-- Shape of `choices[0].delta`. -/
structure Delta where
  content : Option String := none
  tool_calls : Option (List ToolCallDelta) := none
deriving Repr

/-- One provider chunk: either it carries `choices[0].delta`, or indexing
raises (`KeyError` / `IndexError` / `TypeError`) and the chunk is skipped
with a warning (llm_activities.py lines 95-99). -/
inductive Chunk where
  | malformed
  | delta (d : Delta)
deriving Repr

/-- One entry of `_tool_buffers`: `{"name": ..., "arguments": [...]}`. -/
structure ToolBuffer where
  name : Option String
  arguments : List String
deriving Repr

/-- Accumulator state of the streaming loop: the text fragments
(`full_content`), the insertion-ordered dict `_tool_buffers`, and
`_tool_call_order`. -/
structure AccState where
  full_content : List String
  tool_buffers : List (String × ToolBuffer)
  tool_call_order : List String
deriving Repr

def initAcc : AccState := ⟨[], [], []⟩

/-- Python dict assignment `d[k] = v`: overwrite in place, or append a new
key at the end (dicts preserve insertion order). -/
def setA {α : Type} : List (String × α) → String → α → List (String × α)
  | [], k, v => [(k, v)]
  | (k', v') :: rest, k, v =>
    if k' = k then (k, v) :: rest else (k', v') :: setA rest k v

/-- Python dict lookup `d.get(k)` on the insertion-ordered association list. -/
def lookupA {α : Type} : List (String × α) → String → Option α
  | [], _ => none
  | (k', v') :: rest, k => if k' = k then some v' else lookupA rest k

/-- Lazy buffer creation (llm_activities.py lines 116-118): an unseen id
gets a fresh `{"name": None, "arguments": []}` buffer and is appended to
`_tool_call_order`. -/
def createIfAbsent (st : AccState) (tc_id : String) : AccState :=
  if (lookupA st.tool_buffers tc_id).isNone then
    { st with
        tool_buffers := setA st.tool_buffers tc_id ⟨none, []⟩,
        tool_call_order := st.tool_call_order ++ [tc_id] }
  else st

/-- Name overwrite (llm_activities.py lines 123-125): a truthy name always
overwrites the buffered one. -/
def nameUpdate (buf : ToolBuffer) (fn : Option String) : ToolBuffer :=
  match fn with
  | some n => if n ≠ "" then { buf with name := some n } else buf
  | none => buf

/-- Buffer update for one `function` payload (llm_activities.py lines
122-129): name overwrite, then argument fragment append. -/
def updateBuffer (buf : ToolBuffer) (func : FunctionDelta) : ToolBuffer :=
  match func.arguments with
  | some a =>
    { nameUpdate buf func.name with
        arguments := (nameUpdate buf func.name).arguments ++ [a] }
  | none => nameUpdate buf func.name

/-- Processing of a single `tool_calls` delta entry
(llm_activities.py lines 111-129). -/
def processToolCallDelta (st : AccState) (tc : ToolCallDelta) : AccState :=
  match tc.id with
  | none => st
  | some tc_id =>
    match tc.function with
    | none => createIfAbsent st tc_id
    | some func =>
      { createIfAbsent st tc_id with
          tool_buffers := setA (createIfAbsent st tc_id).tool_buffers tc_id
            (updateBuffer
              ((lookupA (createIfAbsent st tc_id).tool_buffers tc_id).getD ⟨none, []⟩)
              func) }

/-- Processing of one well-formed delta (llm_activities.py lines 103-129):
a truthy `content` fragment is appended, then each `tool_calls` entry is
folded in. -/
def processDelta (st : AccState) (d : Delta) : AccState :=
  let st :=
    match d.content with
    | some s => if s ≠ "" then { st with full_content := st.full_content ++ [s] } else st
    | none => st
  match d.tool_calls with
  | some tcs => tcs.foldl processToolCallDelta st
  | none => st

/-- Processing of one chunk of the `async for` loop. -/
def processChunk (st : AccState) (c : Chunk) : AccState :=
  match c with
  | .malformed => st
  | .delta d => processDelta st d

/-- Final arguments value of one buffer (llm_activities.py lines 151-155):
`loads(raw_args) if raw_args else {}`, with a parse failure retaining the
raw string under the sentinel key. -/
def finalArguments (loads : String → Option Json) (raw : String) : Json :=
  if raw = "" then .obj []
  else
    match loads raw with
    | some v => v
    | none => .obj [("raw", .str raw)]

/-- The for-loop of llm_activities.py lines 149-157: build one `ToolCall`
per buffered id, in `_tool_call_order`; a pydantic validation failure
(null name, non-mapping arguments) raises out of the activity. -/
def buildToolCallList (loads : String → Option Json)
    (buffers : List (String × ToolBuffer)) : List String → Option (List ToolCall)
  | [] => some []
  | tid :: rest =>
    match ToolCall.validate tid ((lookupA buffers tid).getD ⟨none, []⟩).name
        (finalArguments loads
          (String.join ((lookupA buffers tid).getD ⟨none, []⟩).arguments)) with
    | none => none
    | some tc =>
      match buildToolCallList loads buffers rest with
      | none => none
      | some tcs => some (tc :: tcs)

/-- Shallow embedding of `llm_activity` (llm_activities.py lines 40-197).
`loads` models `json.loads`; `persistOk` is the oracle verdict of the
blocking `create_run_step_from_message` write (`false` = the write raises);
`log` is the step log of the storage engine before the call.  On success the
activity returns the assembled message together with the updated step log.

Source lines 194-195 guard `final_message is None` with a RuntimeError
reading "LLM streaming did not yield any chunks"; after a stream that raised
no exception the message is always assigned (line 159), so that guard is
unreachable and an empty stream still produces (and persists) a message. -/
def toolCallsFinal (loads : String → Option Json) (st : AccState) :
    Option (Option (List ToolCall)) :=
  if st.tool_buffers.isEmpty then some none
  else
    match buildToolCallList loads st.tool_buffers st.tool_call_order with
    | none => none
    | some tcs => some (some tcs)

/-- The final assistant message assembled at stream end (llm_activities.py
lines 144-163); `none` when building one of the `ToolCall` values raises. -/
def finalMessageOf (loads : String → Option Json) (st : AccState) : Option Message :=
  match toolCallsFinal loads st with
  | none => none
  | some tool_calls_final =>
    some { role := .assistant,
           content := if st.full_content.isEmpty then none
                      else some (String.join st.full_content),
           tool_calls := tool_calls_final }

def llm_activity (loads : String → Option Json) (persistOk : Bool)
    (run_id : String) (stream : List Chunk) (log : List (String × Message)) :
    Except ApplicationError (Message × List (String × Message)) :=
  match finalMessageOf loads (stream.foldl processChunk initAcc) with
  | none => .error { message := "ToolCall validation failed" }
  | some final_message =>
    if persistOk then
      .ok (final_message, log ++ [(run_id, final_message)])
    else
      .error { message := "create_run_step_from_message raised" }

/-- The assistant-role steps recorded for `rid`, most recent last; the value
is the final such step. -/
def lastAssistantStep (log : List (String × Message)) (rid : String) :
    Option Message :=
  ((log.filter (fun p => p.1 == rid && p.2.role == Role.assistant)).getLast?).map
    (fun p => p.2)

/-! Spec-level recursions used to characterise the accumulator: the text
fragments in arrival order, the tool-call ids in first-seen order, and the
argument fragments of one id in arrival order. -/

/-- The truthy `content` fragment (if any) one delta contributes. -/
def chunkFrag (d : Delta) : List String :=
  match d.content with
  | some s => if s ≠ "" then [s] else []
  | none => []

/-- The truthy `content` fragments of the stream, in arrival order. -/
def contentFragments : List Chunk → List String
  | [] => []
  | .malformed :: rest => contentFragments rest
  | .delta d :: rest => chunkFrag d ++ contentFragments rest

/-- The `tool_calls` entries of the stream, flattened in arrival order. -/
def tcEntriesOf : List Chunk → List ToolCallDelta
  | [] => []
  | .malformed :: rest => tcEntriesOf rest
  | .delta d :: rest => d.tool_calls.getD [] ++ tcEntriesOf rest

/-- Non-null ids of the entries, first occurrence only, in first-seen order
(continuing an already-seen prefix `acc`). -/
def seenIdsFrom (acc : List String) : List ToolCallDelta → List String
  | [] => acc
  | tc :: rest =>
    match tc.id with
    | none => seenIdsFrom acc rest
    | some i => seenIdsFrom (if i ∈ acc then acc else acc ++ [i]) rest

/-- The argument fragments one entry contributes to the buffer of id `tid`. -/
def entryArgFragments (tid : String) (tc : ToolCallDelta) : List String :=
  if tc.id = some tid then
    match tc.function with
    | some f => match f.arguments with
      | some a => [a]
      | none => []
    | none => []
  else []

/-- All argument fragments the entry list contributes to id `tid`,
in arrival order. -/
def argFragments (tid : String) : List ToolCallDelta → List String
  | [] => []
  | tc :: rest => entryArgFragments tid tc ++ argFragments tid rest

/-- Concatenated raw argument string recorded for `tid` at stream end. -/
def rawArgsOf (st : AccState) (tid : String) : String :=
  String.join (((lookupA st.tool_buffers tid).getD ⟨none, []⟩).arguments)

/-! ## Agent execution workflow (`src/truss/workflows/agent_workflow.py`)

`TemporalAgentExecutionWorkflow.execute` is embedded as a deterministic
function of an activity oracle `WfEnv` supplying the outcome of every
activity invocation (after the engine's internal retries), together with the
iteration index from which the `request_cancellation` signal flag reads
true.  The function yields the workflow outcome, the ordered trace of
activity invocations, and the number of loop-top cancellation checks that
ran.  The engine surfaces a failed activity into the workflow as an
`ActivityError`, which is not an `ApplicationError` and is therefore caught
by the generic `except Exception` arm of the source. -/

/-- The subset of `AgentConfig` the workflow body reads. -/
structure AgentConfig where
  name : String
  system_prompt : String
deriving Repr, DecidableEq

structure AgentWorkflowInput where
  session_id : String
  user_message : Message
  run_id : Option String := none
deriving Repr

structure AgentWorkflowOutput where
  run_id : String
  status : String
  final_message : Option Message := none
  error : Option String := none
deriving Repr

/-- An exception travelling through the workflow body. -/
inductive Exc where
  | appError (message : String) (nonRetryable : Bool)
  | activityError (message : String)
deriving Repr

/-- One activity invocation recorded in the trace. -/
inductive Event where
  | createRun
  | createRunStep (msg : Message)
  | getRunMemory (iter : Nat)
  | llmStream (iter : Nat) (prompt : List Message)
  | executeTool (tc : ToolCall)
  | finalizeRun (run_id : String) (status : String) (error : Option String)
deriving Repr

/-- Activity oracle: the post-retry outcome of each activity invocation,
addressed by loop iteration (and, for tool persists, position), plus the
iteration from which the cancellation flag reads true.  `Except.error`
is a surfaced activity failure. -/
structure WfEnv where
  parseUUID : String → Option String
  createRun : Except String String
  createRunStepUser : Except String Unit
  getRunMemory : Nat → Except String (List Message)
  llmStream : Nat → Except String Message
  executeTool : Nat → ToolCall → Except String ToolCallResult
  createRunStepTool : Nat → Nat → Except String Unit
  finalizeRunOk : String → String → Option String → Bool
  cancelFrom : Option Nat

/-- What `self.cancellation_requested` reads at the loop-top check of
iteration `i`: the signal is sticky, so it reads true from `cancelFrom` on. -/
def WfEnv.cancelRead (env : WfEnv) (i : Nat) : Bool :=
  match env.cancelFrom with
  | some k => decide (k ≤ i)
  | none => false

/-- Prompt construction (agent_workflow.py lines 142-147): prepend a system
message when an agent config with a truthy system prompt is available, then
the memory messages in order.  The source hard-codes `agent_config = None`
(line 120), so the call site below always passes `none`. -/
def buildPrompt (agent_config : Option AgentConfig) (memory : List Message) :
    List Message :=
  (match agent_config with
   | some cfg =>
     if cfg.system_prompt ≠ "" then
       [{ role := .system, content := some cfg.system_prompt }]
     else []
   | none => []) ++ memory

/-- Python `not assistant_response.tool_calls`: true on `None` and on the
empty list. -/
def toolCallsFalsy : Option (List ToolCall) → Bool
  | none => true
  | some [] => true
  | some (_ :: _) => false

/-- Model of `asyncio.gather` over the dispatched tool activities: all results in
request order, or the exception of a failed activity. -/
def gatherTools (exec : ToolCall → Except String ToolCallResult) :
    List ToolCall → Except String (List ToolCallResult)
  | [] => .ok []
  | tc :: rest =>
    match exec tc with
    | .error e => .error e
    | .ok r =>
      match gatherTools exec rest with
      | .error e => .error e
      | .ok rs => .ok (r :: rs)

/-- The tool-role step built for one result (agent_workflow.py line 199). -/
def toolResultMessage (res : ToolCallResult) : Message :=
  { role := .tool, content := some res.content, tool_call_id := some res.tool_call_id }

/-- The sequential persist loop over tool results (agent_workflow.py lines
198-206); `persist idx` is the oracle outcome of the `CreateRunStep`
activity for the result at position `idx`. -/
def persistToolResults (persist : Nat → Except String Unit) :
    List ToolCallResult → Nat → List Event × Except String Unit
  | [], _ => ([], .ok ())
  | res :: rest, idx =>
    match persist idx with
    | .error e => ([.createRunStep (toolResultMessage res)], .error e)
    | .ok _ =>
      let tail := persistToolResults persist rest (idx + 1)
      (.createRunStep (toolResultMessage res) :: tail.1, tail.2)

/-- One assistant turn's tool handling (agent_workflow.py lines 183-206):
fan out every `ExecuteTool` activity, join on all of them, then persist one
tool-role step per result in request order. -/
def toolPhase (exec : ToolCall → Except String ToolCallResult)
    (persist : Nat → Except String Unit) (tcs : List ToolCall) :
    List Event × Except String Unit :=
  let startEvents := tcs.map Event.executeTool
  match gatherTools exec tcs with
  | .error e => (startEvents, .error e)
  | .ok results =>
    let persisted := persistToolResults persist results 0
    (startEvents ++ persisted.1, persisted.2)

/-- How the try-body of the workflow run method terminates. -/
inductive LoopExit where
  | ret (out : AgentWorkflowOutput)
  | exc (e : Exc)
  | fuelOut
deriving Repr

/-- The `while True` reasoning loop (agent_workflow.py lines 124-208),
fuel-bounded.  Returns the exit, the loop's trace, and the number of
loop-top cancellation checks executed. -/
def wfLoop (env : WfEnv) (run_id : String) : Nat → Nat → LoopExit × List Event × Nat
  | 0, _ => (.fuelOut, [], 0)
  | fuel + 1, i =>
    if env.cancelRead i then
      (.exc (.appError "Workflow cancelled via signal" true), [], 1)
    else
      match env.getRunMemory i with
      | .error e => (.exc (.activityError e), [.getRunMemory i], 1)
      | .ok memory =>
        match env.llmStream i with
        | .error e =>
          (.exc (.activityError e),
           [.getRunMemory i, .llmStream i (buildPrompt none memory)], 1)
        | .ok assistant_response =>
          if toolCallsFalsy assistant_response.tool_calls then
            (.ret { run_id := run_id, status := "completed",
                    final_message := some assistant_response },
             [.getRunMemory i, .llmStream i (buildPrompt none memory)], 1)
          else
            match assistant_response.tool_calls with
            | none =>
              -- dead safety guard of line 177-179: `continue`
              ((wfLoop env run_id fuel (i + 1)).1,
               [.getRunMemory i, .llmStream i (buildPrompt none memory)]
                 ++ (wfLoop env run_id fuel (i + 1)).2.1,
               (wfLoop env run_id fuel (i + 1)).2.2 + 1)
            | some tcs =>
              match (toolPhase (env.executeTool i) (env.createRunStepTool i) tcs).2 with
              | .error e =>
                (.exc (.activityError e),
                 [.getRunMemory i, .llmStream i (buildPrompt none memory)]
                   ++ (toolPhase (env.executeTool i) (env.createRunStepTool i) tcs).1, 1)
              | .ok _ =>
                ((wfLoop env run_id fuel (i + 1)).1,
                 [.getRunMemory i, .llmStream i (buildPrompt none memory)]
                   ++ (toolPhase (env.executeTool i) (env.createRunStepTool i) tcs).1
                   ++ (wfLoop env run_id fuel (i + 1)).2.1,
                 (wfLoop env run_id fuel (i + 1)).2.2 + 1)

/-- The except arms (agent_workflow.py lines 210-219): an `ApplicationError`
maps to `cancelled` when its lowered message contains "cancelled", otherwise
`errored`; every other exception maps to `errored`. -/
def statusOfExc : Exc → String × Option String
  | .appError msg _ =>
    (if containsSub (lowerString msg) "cancelled" then "cancelled" else "errored",
     some msg)
  | .activityError msg => ("errored", some msg)

/-- The finally block (agent_workflow.py lines 221-233): when `run_id` was
assigned, `FinalizeRun` is invoked once; its own failure is swallowed. -/
def finalizeEnvelope (env : WfEnv) (runId? : Option String) (finalStatus : String)
    (errorMessage : Option String) : List Event :=
  match runId? with
  | none => []
  | some rid =>
    let _swallowed := env.finalizeRunOk rid finalStatus errorMessage
    [.finalizeRun rid finalStatus errorMessage]

/-- Result of one workflow execution: outcome, full trace, number of
loop-top checks, and the `final_status` / `error_message` locals at exit. -/
structure WfRun where
  outcome : LoopExit
  trace : List Event
  checksDone : Nat
  finalStatus : String
  errorMessage : Option String
deriving Repr

/-- Shallow embedding of `TemporalAgentExecutionWorkflow.execute`
(agent_workflow.py lines 57-239).  The fuel bound only limits the number of
reasoning-loop iterations; `fuelOut` marks a run whose modelled budget was
exhausted mid-loop (the source loop can only exit by return or raise). -/
def executeWorkflow (env : WfEnv) (input : AgentWorkflowInput) (fuel : Nat) : WfRun :=
  match env.parseUUID input.session_id with
  | none =>
    -- raised before the try/finally envelope: no FinalizeRun
    { outcome := .exc (.appError "Invalid session_id UUID string" true),
      trace := [], checksDone := 0, finalStatus := "errored", errorMessage := none }
  | some _sid =>
    match env.createRun with
    | .error e =>
      -- run_id was never assigned: the finally block skips FinalizeRun
      { outcome := .exc (.activityError e), trace := [.createRun],
        checksDone := 0, finalStatus := "errored", errorMessage := some e }
    | .ok rid =>
      match env.createRunStepUser with
      | .error e =>
        { outcome := .exc (.activityError e),
          trace := [.createRun, .createRunStep input.user_message]
                   ++ finalizeEnvelope env (some rid) "errored" (some e),
          checksDone := 0, finalStatus := "errored", errorMessage := some e }
      | .ok _ =>
        match wfLoop env rid fuel 0 with
        | (.ret out, evs, checks) =>
          { outcome := .ret out,
            trace := [Event.createRun, Event.createRunStep input.user_message] ++ evs
                     ++ finalizeEnvelope env (some rid) "completed" none,
            checksDone := checks, finalStatus := "completed", errorMessage := none }
        | (.exc e, evs, checks) =>
          { outcome := .exc e,
            trace := [Event.createRun, Event.createRunStep input.user_message] ++ evs
                     ++ finalizeEnvelope env (some rid) (statusOfExc e).1 (statusOfExc e).2,
            checksDone := checks, finalStatus := (statusOfExc e).1,
            errorMessage := (statusOfExc e).2 }
        | (.fuelOut, evs, checks) =>
          { outcome := .fuelOut,
            trace := [Event.createRun, Event.createRunStep input.user_message] ++ evs,
            checksDone := checks, finalStatus := "errored", errorMessage := none }

/-- Recognise `FinalizeRun` invocations in a trace. -/
def isFinalize : Event → Bool
  | .finalizeRun _ _ _ => true
  | _ => false

/-- Recognise `LLMStreamPublish` invocations in a trace. -/
def isLlm : Event → Bool
  | .llmStream _ _ => true
  | _ => false

/-! ## Shared concrete instances used by evaluation theorems and witnesses -/

/-- A json.loads oracle that rejects every string; in particular it agrees
with the real parser on the empty document, which is not valid JSON. -/
def loads0 : String → Option Json := fun _ => none

/-- A trivial json.dumps oracle. -/
def dumps0 : Json → String := fun _ => "JSON"

/-- The message assembled from a chunk-less stream. -/
def emptyAssistantMessage : Message := { role := .assistant }

/-! ## Claim C7 -/

/-- Claim C7 counterexample: `Message(role="tool")` with null `content` and
null `tool_call_id` passes construction-time validation in
data_models.py (the model declares no validators beyond the field types), so
the role-dependent invariants are not enforced at construction time. -/
theorem message_invariants_not_enforced : ¬ MessageInvariantClaim := by
  intro hclaim
  have h := hclaim "tool" none none none
    { role := .tool, content := none, tool_calls := none, tool_call_id := none } rfl
  simp [roleInvariantsHold] at h

/-- Claim C7 (amended): constructing a `Message` validates only that the
role is one of the four literals (an invalid role fails, matching spec
scenario S6); none of the role-dependent content/tool-field invariants are
enforced — a `tool` message with both fields null, an `assistant` message
with neither `content` nor `tool_calls`, and a `user` message carrying a
`tool_call_id` all validate successfully. -/
theorem message_validation_checks_role_only :
    (∀ role content tool_calls tool_call_id,
        (Message.validate role content tool_calls tool_call_id).isSome
          = (parseRole role).isSome)
    ∧ Message.validate "invalid" (some "oops") none none = none
    ∧ (∃ m, Message.validate "tool" none none none = some m
        ∧ roleInvariantsHold m = false)
    ∧ (∃ m, Message.validate "assistant" none none none = some m
        ∧ roleInvariantsHold m = false)
    ∧ (∃ m, Message.validate "user" (some "hi") none (some "tc-9") = some m
        ∧ roleInvariantsHold m = false) := by
  refine ⟨?_, rfl, ⟨_, rfl, rfl⟩, ⟨_, rfl, rfl⟩, ⟨_, rfl, rfl⟩⟩
  intro role content tool_calls tool_call_id
  unfold Message.validate
  cases parseRole role <;> rfl

/-! ## Claim C6 -/

/-- Claim C6 (code bug): for a tool name absent from the registry the
activity raises `ApplicationError("Tool '...' is not registered.")` without
`non_retryable=True`; temporalio defaults the flag to false, so the failure
is retryable, contradicting both the specification's error table and the
activity's own docstring, which promises non-retryable treatment. -/
theorem execute_tool_unregistered_error_is_retryable :
    ∀ web_search get_stock_price : ToolHandler,
      execute_tool_activity loads0 dumps0
          (TOOL_REGISTRY web_search get_stock_price)
          { id := "call-1", name := "does_not_exist", arguments := .map [] }
        = .error { message := "Tool 'does_not_exist' is not registered.",
                   nonRetryable := false } :=
  fun _ _ => rfl

/-! ## Claim C5 -/

/-- Claim C5 (code bug): on a provider stream of zero chunks the activity
does not fail — `final_message` is assigned unconditionally after the loop
(llm_activities.py line 159), so the dead `final_message is None` guard of
lines 194-195 (whose message reads "LLM streaming did not yield any
chunks") never fires; the activity persists and returns an empty assistant
message with null content and null tool calls. -/
theorem llm_activity_zero_chunks_still_returns :
    llm_activity loads0 true "run-1" [] []
      = .ok (emptyAssistantMessage, [("run-1", emptyAssistantMessage)]) := rfl

/-! ## Claim C9 -/

/-- Claim C9: for a registered tool name, mapping arguments are handed to
the handler as keyword arguments (shallow copy), string arguments are JSON
parsed — an unparseable string raises the InvalidInput application error —
and on success the handler's return value is JSON-encoded when it is a
mapping or a list and stringified otherwise, packaged as a
`ToolCallResult` whose `tool_call_id` is the input `tool_call.id`. -/
theorem execute_tool_registered_argument_and_result_handling
    (loads : String → Option Json) (dumps : Json → String)
    (registry : List (String × ToolHandler)) (tc : ToolCallArg) (f : ToolHandler)
    (hf : registry.lookup tc.name = some f) :
    (∀ fields r, tc.arguments = .map fields → f fields = .ok r →
        execute_tool_activity loads dumps registry tc
          = .ok { tool_call_id := tc.id, content := serializeResult dumps r })
    ∧ (∀ s, tc.arguments = .str s → loads s = none →
        execute_tool_activity loads dumps registry tc
          = .error { message := "Invalid JSON arguments for tool call" })
    ∧ (∀ s fields r, tc.arguments = .str s → loads s = some (.obj fields) →
        f fields = .ok r →
        execute_tool_activity loads dumps registry tc
          = .ok { tool_call_id := tc.id, content := serializeResult dumps r })
    ∧ (∀ v, (isMappingOrList v = true → serializeResult dumps v = dumps v)
        ∧ (isMappingOrList v = false → serializeResult dumps v = pyStr v)) := by
  refine ⟨?_, ?_, ?_, ?_⟩
  · intro fields r hargs hr
    simp [execute_tool_activity, hf, hargs, hr]
  · intro s hargs hl
    simp [execute_tool_activity, hf, hargs, hl]
  · intro s fields r hargs hl hr
    simp [execute_tool_activity, hf, hargs, hl, hr]
  · intro v
    cases v <;> simp [isMappingOrList, serializeResult]

/-- A tool handler echoing its keyword arguments, used to witness C9. -/
def echoTool : ToolHandler := fun fields => .ok (.obj fields)

/-- Concrete witness for the C9 theorem. -/
theorem execute_tool_registered_argument_and_result_handling_witness :
    ([("echo", echoTool)] : List (String × ToolHandler)).lookup "echo" = some echoTool
    ∧ execute_tool_activity loads0 dumps0 [("echo", echoTool)]
        { id := "id-1", name := "echo", arguments := .map [("a", .num 1)] }
        = .ok { tool_call_id := "id-1",
                content := serializeResult dumps0 (.obj [("a", .num 1)]) } :=
  ⟨rfl,
   (execute_tool_registered_argument_and_result_handling loads0 dumps0
      [("echo", echoTool)]
      { id := "id-1", name := "echo", arguments := .map [("a", .num 1)] }
      echoTool rfl).1 [("a", .num 1)] (.obj [("a", .num 1)]) rfl rfl⟩

/-! ## Claim C1 -/

/-- Claim C1: whenever the LLM streaming activity returns normally, the
returned message has the assistant role, the step log has been extended with
exactly that message for the given run before the return — so the returned
message is the last assistant-role step of the run — and a raised
persistence write makes the activity fail with a retryable error instead of
returning. -/
theorem llm_activity_persistence_before_return
    (loads : String → Option Json) (rid : String) (stream : List Chunk)
    (log : List (String × Message)) :
    (∀ msg log', llm_activity loads true rid stream log = .ok (msg, log') →
        msg.role = .assistant
        ∧ log' = log ++ [(rid, msg)]
        ∧ lastAssistantStep log' rid = some msg)
    ∧ (∃ e, llm_activity loads false rid stream log = .error e
        ∧ e.nonRetryable = false) := by
  have hrole_aux : ∀ fm,
      finalMessageOf loads (stream.foldl processChunk initAcc) = some fm →
      fm.role = .assistant := by
    intro fm hfm
    unfold finalMessageOf at hfm
    cases htc : toolCallsFinal loads (stream.foldl processChunk initAcc) with
    | none => rw [htc] at hfm; exact absurd hfm (by simp)
    | some tcf =>
      rw [htc] at hfm
      exact (Option.some.inj hfm) ▸ rfl
  constructor
  · intro msg log' h
    unfold llm_activity at h
    cases hfm : finalMessageOf loads (stream.foldl processChunk initAcc) with
    | none => rw [hfm] at h; exact absurd h (by simp)
    | some fm =>
      rw [hfm] at h
      simp only [if_true] at h
      have h2 := Except.ok.inj h
      have hm : fm = msg := congrArg Prod.fst h2
      have hl : log ++ [(rid, fm)] = log' := congrArg Prod.snd h2
      have key : fm.role = .assistant
          ∧ (log ++ [(rid, fm)] : List (String × Message)) = log ++ [(rid, fm)]
          ∧ lastAssistantStep (log ++ [(rid, fm)]) rid = some fm := by
        have hrole := hrole_aux fm hfm
        refine ⟨hrole, rfl, ?_⟩
        unfold lastAssistantStep
        rw [List.filter_append]
        have hfilter : List.filter
            (fun p : String × Message => p.1 == rid && p.2.role == Role.assistant)
            [(rid, fm)] = [(rid, fm)] := by
          simp [hrole]
        rw [hfilter, List.getLast?_concat]
        rfl
      rw [← hm, ← hl]
      exact key
  · cases hfm : finalMessageOf loads (stream.foldl processChunk initAcc) with
    | none =>
      refine ⟨{ message := "ToolCall validation failed" }, ?_, rfl⟩
      unfold llm_activity
      rw [hfm]
    | some fm =>
      refine ⟨{ message := "create_run_step_from_message raised" }, ?_, rfl⟩
      unfold llm_activity
      rw [hfm]
      rfl

/-- Concrete witness for the C1 theorem. -/
theorem llm_activity_persistence_before_return_witness :
    llm_activity loads0 true "run-w" [] []
      = .ok (emptyAssistantMessage, [("run-w", emptyAssistantMessage)])
    ∧ (emptyAssistantMessage.role = .assistant
       ∧ [("run-w", emptyAssistantMessage)]
           = [] ++ [("run-w", emptyAssistantMessage)]
       ∧ lastAssistantStep [("run-w", emptyAssistantMessage)] "run-w"
           = some emptyAssistantMessage) :=
  ⟨rfl, (llm_activity_persistence_before_return loads0 "run-w" [] []).1
          emptyAssistantMessage [("run-w", emptyAssistantMessage)] rfl⟩

/-! ## Claim C10 -/

/-- Claim C10: a `tool_calls` delta entry whose id is null is skipped
entirely — processing it is the identity on the accumulator, and deleting
such an entry from any chunk of the stream leaves the whole activity's
result (final message and step log alike) unchanged. -/
theorem null_id_tool_call_delta_skipped
    (loads : String → Option Json) (persistOk : Bool) (rid : String)
    (log : List (String × Message)) (pre post : List Chunk) (d : Delta)
    (l1 l2 : List ToolCallDelta) (tcNull : ToolCallDelta)
    (h : tcNull.id = none) :
    (∀ st, processToolCallDelta st tcNull = st)
    ∧ llm_activity loads persistOk rid
        (pre ++ [.delta { d with tool_calls := some (l1 ++ tcNull :: l2) }] ++ post) log
      = llm_activity loads persistOk rid
        (pre ++ [.delta { d with tool_calls := some (l1 ++ l2) }] ++ post) log := by
  have hid : ∀ st, processToolCallDelta st tcNull = st := by
    intro st
    unfold processToolCallDelta
    rw [h]
  refine ⟨hid, ?_⟩
  have hdelta : ∀ st : AccState,
      processChunk st (.delta { d with tool_calls := some (l1 ++ tcNull :: l2) })
        = processChunk st (.delta { d with tool_calls := some (l1 ++ l2) }) := by
    intro st
    unfold processChunk processDelta
    simp only
    rw [List.foldl_append, List.foldl_append, List.foldl_cons, hid]
  have hfold :
      (pre ++ [Chunk.delta { d with tool_calls := some (l1 ++ tcNull :: l2) }] ++ post).foldl
          processChunk initAcc
        = (pre ++ [Chunk.delta { d with tool_calls := some (l1 ++ l2) }] ++ post).foldl
            processChunk initAcc := by
    rw [List.foldl_append, List.foldl_append, List.foldl_append, List.foldl_append]
    rw [List.foldl_cons, List.foldl_cons, List.foldl_nil, List.foldl_nil, hdelta]
  unfold llm_activity
  rw [hfold]

/-- A null-id tool-call delta entry carrying a name and an argument
fragment, used to witness C10. -/
def nullIdDelta : ToolCallDelta :=
  { id := none, function := some { name := some "zzz", arguments := some "IGNORED" } }

/-- Concrete witness for the C10 theorem. -/
theorem null_id_tool_call_delta_skipped_witness :
    processToolCallDelta initAcc nullIdDelta = initAcc
    ∧ llm_activity loads0 true "r" [.delta { tool_calls := some [nullIdDelta] }] []
      = llm_activity loads0 true "r" [.delta { tool_calls := some [] }] [] := by
  have h := null_id_tool_call_delta_skipped loads0 true "r" [] [] [] {} [] [] nullIdDelta rfl
  exact ⟨h.1 initAcc, h.2⟩

/-! ## Claim C3 -/

theorem gatherTools_all_ok (exec : ToolCall → Except String ToolCallResult)
    (r : ToolCall → ToolCallResult) :
    ∀ tcs : List ToolCall, (∀ tc ∈ tcs, exec tc = .ok (r tc)) →
      gatherTools exec tcs = .ok (tcs.map r) := by
  intro tcs
  induction tcs with
  | nil => intro _; rfl
  | cons tc rest ih =>
    intro hall
    have h1 : exec tc = .ok (r tc) := hall tc (List.mem_cons_self tc rest)
    have h2 := ih (fun tc' h' => hall tc' (List.mem_cons_of_mem tc h'))
    unfold gatherTools
    rw [h1, h2]
    rfl

theorem persistToolResults_all_ok (persist : Nat → Except String Unit)
    (hpersist : ∀ idx, persist idx = .ok ()) :
    ∀ (results : List ToolCallResult) (idx : Nat),
      persistToolResults persist results idx
        = (results.map (fun res => Event.createRunStep (toolResultMessage res)), .ok ()) := by
  intro results
  induction results with
  | nil => intro idx; rfl
  | cons res rest ih =>
    intro idx
    unfold persistToolResults
    rw [hpersist idx, ih (idx + 1)]
    rfl

/-- Claim C3: one assistant turn's tool handling is a parallel barrier
followed by sequential persistence — the trace shows every `ExecuteTool`
dispatch (in tool-call order) strictly before any tool-step write; when all
results are available exactly one tool-role step is persisted per result, in
the original order, carrying the result's content and tool_call_id; and when
any tool activity fails, no tool step is persisted at all. -/
theorem tool_barrier_and_sequential_persistence
    (exec : ToolCall → Except String ToolCallResult)
    (persist : Nat → Except String Unit) (tcs : List ToolCall) :
    (∀ r : ToolCall → ToolCallResult,
        (∀ tc ∈ tcs, exec tc = .ok (r tc)) → (∀ idx, persist idx = .ok ()) →
        toolPhase exec persist tcs
          = (tcs.map Event.executeTool
               ++ tcs.map (fun tc => Event.createRunStep (toolResultMessage (r tc))),
             .ok ()))
    ∧ (∀ e, gatherTools exec tcs = .error e →
        toolPhase exec persist tcs = (tcs.map Event.executeTool, .error e))
    ∧ (∀ res, (toolResultMessage res).role = .tool
        ∧ (toolResultMessage res).content = some res.content
        ∧ (toolResultMessage res).tool_call_id = some res.tool_call_id) := by
  refine ⟨?_, ?_, fun res => ⟨rfl, rfl, rfl⟩⟩
  · intro r hexec hpersist
    unfold toolPhase
    rw [gatherTools_all_ok exec r tcs hexec]
    simp only
    rw [persistToolResults_all_ok persist hpersist (tcs.map r) 0]
    simp [List.map_map, Function.comp]
  · intro e hfail
    unfold toolPhase
    rw [hfail]

/-- A three-call turn used to witness C3. -/
def tcsW : List ToolCall :=
  [{ id := "tc1", name := "web_search", arguments := [("query", .str "hi")] },
   { id := "tc2", name := "get_stock_price", arguments := [("ticker_symbol", .str "ACME")] },
   { id := "tc3", name := "web_search", arguments := [] }]

def execW : ToolCall → Except String ToolCallResult :=
  fun tc => .ok { tool_call_id := tc.id, content := "result" }

def resW : ToolCall → ToolCallResult :=
  fun tc => { tool_call_id := tc.id, content := "result" }

/-- Concrete witness for the C3 theorem. -/
theorem tool_barrier_and_sequential_persistence_witness :
    toolPhase execW (fun _ => .ok ()) tcsW
      = (tcsW.map Event.executeTool
           ++ tcsW.map (fun tc => Event.createRunStep (toolResultMessage (resW tc))),
         .ok ()) :=
  (tool_barrier_and_sequential_persistence execW (fun _ => .ok ()) tcsW).1
    resW (fun _ _ => rfl) (fun _ => rfl)

/-! ## Claim C2 -/

theorem persistToolResults_event_kinds (persist : Nat → Except String Unit) :
    ∀ (results : List ToolCallResult) (idx : Nat),
      ∀ ev ∈ (persistToolResults persist results idx).1, ∃ m, ev = Event.createRunStep m := by
  intro results
  induction results with
  | nil => intro idx ev hev; simp [persistToolResults] at hev
  | cons res rest ih =>
    intro idx ev hev
    unfold persistToolResults at hev
    cases hpi : persist idx with
    | error e =>
      rw [hpi] at hev
      simp at hev
      exact ⟨toolResultMessage res, hev⟩
    | ok u =>
      rw [hpi] at hev
      simp only [List.mem_cons] at hev
      rcases hev with hev | hev
      · exact ⟨toolResultMessage res, hev⟩
      · exact ih (idx + 1) ev hev

theorem toolPhase_event_kinds (exec : ToolCall → Except String ToolCallResult)
    (persist : Nat → Except String Unit) (tcs : List ToolCall) :
    ∀ ev ∈ (toolPhase exec persist tcs).1,
      (∃ tc, ev = Event.executeTool tc) ∨ (∃ m, ev = Event.createRunStep m) := by
  intro ev hev
  unfold toolPhase at hev
  cases hg : gatherTools exec tcs with
  | error e =>
    rw [hg] at hev
    simp only [List.mem_map] at hev
    obtain ⟨tc, _, htc⟩ := hev
    exact .inl ⟨tc, htc.symm⟩
  | ok results =>
    rw [hg] at hev
    simp only [List.mem_append, List.mem_map] at hev
    rcases hev with ⟨tc, _, htc⟩ | hev
    · exact .inl ⟨tc, htc.symm⟩
    · exact .inr (persistToolResults_event_kinds persist results 0 ev hev)

theorem wfLoop_event_kinds (env : WfEnv) (rid : String) :
    ∀ (fuel i : Nat), ∀ ev ∈ (wfLoop env rid fuel i).2.1,
      (∃ j, ev = Event.getRunMemory j) ∨ (∃ j p, ev = Event.llmStream j p)
      ∨ (∃ tc, ev = Event.executeTool tc) ∨ (∃ m, ev = Event.createRunStep m) := by
  intro fuel
  induction fuel with
  | zero => intro i ev hev; simp [wfLoop] at hev
  | succ n ih =>
    intro i ev hev
    unfold wfLoop at hev
    split at hev
    · simp at hev
    · split at hev
      · simp at hev
        exact .inl ⟨i, hev⟩
      · split at hev
        · simp at hev
          rcases hev with hev | hev
          · exact .inl ⟨i, hev⟩
          · exact .inr (.inl ⟨i, _, hev⟩)
        · split at hev
          · simp at hev
            rcases hev with hev | hev
            · exact .inl ⟨i, hev⟩
            · exact .inr (.inl ⟨i, _, hev⟩)
          · split at hev
            · simp only [List.cons_append, List.nil_append, List.mem_cons] at hev
              rcases hev with hev | hev | hev
              · exact .inl ⟨i, hev⟩
              · exact .inr (.inl ⟨i, _, hev⟩)
              · exact ih (i + 1) ev hev
            · split at hev
              · simp only [List.cons_append, List.nil_append, List.mem_cons,
                  List.mem_append] at hev
                rcases hev with hev | hev | hev
                · exact .inl ⟨i, hev⟩
                · exact .inr (.inl ⟨i, _, hev⟩)
                · rcases toolPhase_event_kinds (env.executeTool i)
                    (env.createRunStepTool i) _ ev hev with h' | h'
                  · exact .inr (.inr (.inl h'))
                  · exact .inr (.inr (.inr h'))
              · simp only [List.cons_append, List.nil_append, List.mem_cons,
                  List.mem_append] at hev
                rcases hev with hev | hev | hev | hev
                · exact .inl ⟨i, hev⟩
                · exact .inr (.inl ⟨i, _, hev⟩)
                · rcases toolPhase_event_kinds (env.executeTool i)
                    (env.createRunStepTool i) _ ev hev with h' | h'
                  · exact .inr (.inr (.inl h'))
                  · exact .inr (.inr (.inr h'))
                · exact ih (i + 1) ev hev

theorem wfLoop_no_finalize (env : WfEnv) (rid : String) (fuel i : Nat) :
    ((wfLoop env rid fuel i).2.1.filter isFinalize) = [] := by
  rw [List.filter_eq_nil_iff]
  intro ev hev
  rcases wfLoop_event_kinds env rid fuel i ev hev with ⟨j, h⟩ | ⟨j, p, h⟩ | ⟨tc, h⟩ | ⟨m, h⟩ <;>
    subst h <;> simp [isFinalize]

theorem wfLoop_finalize_oracle_irrelevant (env : WfEnv) (rid : String)
    (fOk : String → String → Option String → Bool) :
    ∀ fuel i, wfLoop { env with finalizeRunOk := fOk } rid fuel i = wfLoop env rid fuel i := by
  intro fuel
  induction fuel with
  | zero => intro i; rfl
  | succ n ih =>
    intro i
    unfold wfLoop
    simp only [ih]
    rfl

/-- Claim C2: `FinalizeRun` runs exactly once whenever `CreateRun` succeeded
(on the completed path, on every error path, and on signal-driven
cancellation) and never when it did not; the single finalize invocation
carries the final status and error message; and the finalize oracle's own
verdict (success or failure) never changes the workflow's outcome — a
failing `FinalizeRun` is swallowed. -/
theorem finalize_run_exactly_once (env : WfEnv) (input : AgentWorkflowInput)
    (fuel : Nat) (h : (executeWorkflow env input fuel).outcome ≠ LoopExit.fuelOut) :
    ((executeWorkflow env input fuel).trace.filter isFinalize
       = (if (env.parseUUID input.session_id).isSome then
            match env.createRun with
            | .ok rid => [Event.finalizeRun rid (executeWorkflow env input fuel).finalStatus
                            (executeWorkflow env input fuel).errorMessage]
            | .error _ => []
          else []))
    ∧ (∀ fOk, executeWorkflow { env with finalizeRunOk := fOk } input fuel
         = executeWorkflow env input fuel) := by
  constructor
  · unfold executeWorkflow at h ⊢
    cases hp : env.parseUUID input.session_id with
    | none => simp
    | some sid =>
      cases hcr : env.createRun with
      | error e => simp [isFinalize]
      | ok rid =>
        cases hcs : env.createRunStepUser with
        | error e => simp [finalizeEnvelope, isFinalize]
        | ok u =>
          rcases hb : wfLoop env rid fuel 0 with ⟨ex, evs, checks⟩
          have hevs : evs.filter isFinalize = [] := by
            have hnf := wfLoop_no_finalize env rid fuel 0
            rw [hb] at hnf
            exact hnf
          cases ex with
          | ret out =>
            simp only [hb]
            simp [finalizeEnvelope, isFinalize, List.filter_append, hevs]
          | exc e2 =>
            simp only [hb]
            simp [finalizeEnvelope, isFinalize, List.filter_append, hevs]
          | fuelOut =>
            rw [hp, hcr, hcs] at h
            simp only [hb] at h
            simp at h
  · intro fOk
    unfold executeWorkflow
    simp only [wfLoop_finalize_oracle_irrelevant]
    rfl

/-- A two-turn tool call used by the workflow oracle below. -/
def tcW : ToolCall :=
  { id := "tc1", name := "web_search", arguments := [("query", .str "hi")] }

/-- A concrete healthy activity oracle: iteration 0 requests one tool call,
iteration 1 answers "done"; every storage write succeeds. -/
def envW : WfEnv :=
  { parseUUID := fun s => some s,
    createRun := .ok "run-9",
    createRunStepUser := .ok (),
    getRunMemory := fun _ => .ok [{ role := .user, content := some "hello" }],
    llmStream := fun i =>
      if i = 0 then .ok { role := .assistant, tool_calls := some [tcW] }
      else .ok { role := .assistant, content := some "done" },
    executeTool := fun _ tc => .ok { tool_call_id := tc.id, content := "result" },
    createRunStepTool := fun _ _ => .ok (),
    finalizeRunOk := fun _ _ _ => true,
    cancelFrom := none }

def inputW : AgentWorkflowInput :=
  { session_id := "sess-1", user_message := { role := .user, content := some "hello" } }

/-- Concrete witness for the C2 theorem. -/
theorem finalize_run_exactly_once_witness :
    ((executeWorkflow envW inputW 5).trace.filter isFinalize
       = (if (envW.parseUUID inputW.session_id).isSome then
            match envW.createRun with
            | .ok rid => [Event.finalizeRun rid (executeWorkflow envW inputW 5).finalStatus
                            (executeWorkflow envW inputW 5).errorMessage]
            | .error _ => []
          else []))
    ∧ (∀ fOk, executeWorkflow { envW with finalizeRunOk := fOk } inputW 5
         = executeWorkflow envW inputW 5) :=
  finalize_run_exactly_once envW inputW 5 (fun hcontra => nomatch hcontra)

/-! ## Claim C4 -/

theorem toolPhase_no_llm (exec : ToolCall → Except String ToolCallResult)
    (persist : Nat → Except String Unit) (tcs : List ToolCall) :
    ((toolPhase exec persist tcs).1.filter isLlm) = [] := by
  rw [List.filter_eq_nil_iff]
  intro ev hev
  rcases toolPhase_event_kinds exec persist tcs ev hev with ⟨tc, h⟩ | ⟨m, h⟩ <;>
    subst h <;> simp [isLlm]

/-- Branch characterisation of one unrolling of the reasoning loop: exactly
one of the seven control paths of the loop body applies, with the scrutinee
facts and the resulting value recorded. -/
theorem wfLoop_succ_char (env : WfEnv) (rid : String) (n i : Nat) :
    (env.cancelRead i = true
      ∧ wfLoop env rid (n + 1) i
          = (.exc (.appError "Workflow cancelled via signal" true), [], 1))
    ∨ (env.cancelRead i = false ∧ ∃ e, env.getRunMemory i = .error e
        ∧ wfLoop env rid (n + 1) i = (.exc (.activityError e), [.getRunMemory i], 1))
    ∨ (env.cancelRead i = false ∧ ∃ memory e, env.getRunMemory i = .ok memory
        ∧ env.llmStream i = .error e
        ∧ wfLoop env rid (n + 1) i
            = (.exc (.activityError e),
               [.getRunMemory i, .llmStream i (buildPrompt none memory)], 1))
    ∨ (env.cancelRead i = false ∧ ∃ memory resp, env.getRunMemory i = .ok memory
        ∧ env.llmStream i = .ok resp ∧ toolCallsFalsy resp.tool_calls = true
        ∧ wfLoop env rid (n + 1) i
            = (.ret { run_id := rid, status := "completed", final_message := some resp },
               [.getRunMemory i, .llmStream i (buildPrompt none memory)], 1))
    ∨ (env.cancelRead i = false ∧ ∃ memory resp, env.getRunMemory i = .ok memory
        ∧ env.llmStream i = .ok resp ∧ toolCallsFalsy resp.tool_calls = false
        ∧ resp.tool_calls = none
        ∧ wfLoop env rid (n + 1) i
            = ((wfLoop env rid n (i + 1)).1,
               [.getRunMemory i, .llmStream i (buildPrompt none memory)]
                 ++ (wfLoop env rid n (i + 1)).2.1,
               (wfLoop env rid n (i + 1)).2.2 + 1))
    ∨ (env.cancelRead i = false ∧ ∃ memory resp tcs e, env.getRunMemory i = .ok memory
        ∧ env.llmStream i = .ok resp ∧ toolCallsFalsy resp.tool_calls = false
        ∧ resp.tool_calls = some tcs
        ∧ (toolPhase (env.executeTool i) (env.createRunStepTool i) tcs).2 = .error e
        ∧ wfLoop env rid (n + 1) i
            = (.exc (.activityError e),
               [.getRunMemory i, .llmStream i (buildPrompt none memory)]
                 ++ (toolPhase (env.executeTool i) (env.createRunStepTool i) tcs).1, 1))
    ∨ (env.cancelRead i = false ∧ ∃ memory resp tcs, env.getRunMemory i = .ok memory
        ∧ env.llmStream i = .ok resp ∧ toolCallsFalsy resp.tool_calls = false
        ∧ resp.tool_calls = some tcs
        ∧ (∃ u, (toolPhase (env.executeTool i) (env.createRunStepTool i) tcs).2 = .ok u)
        ∧ wfLoop env rid (n + 1) i
            = ((wfLoop env rid n (i + 1)).1,
               [.getRunMemory i, .llmStream i (buildPrompt none memory)]
                 ++ (toolPhase (env.executeTool i) (env.createRunStepTool i) tcs).1
                 ++ (wfLoop env rid n (i + 1)).2.1,
               (wfLoop env rid n (i + 1)).2.2 + 1)) := by
  have h : wfLoop env rid (n + 1) i = wfLoop env rid (n + 1) i := rfl
  nth_rewrite 2 [wfLoop] at h
  split at h
  · rename_i hread
    exact .inl ⟨hread, h⟩
  · rename_i hread
    have hread' : env.cancelRead i = false := by simpa using hread
    split at h
    · rename_i e heq
      exact .inr (.inl ⟨hread', e, heq, h⟩)
    · rename_i memory heq
      split at h
      · rename_i e hllm
        exact .inr (.inr (.inl ⟨hread', memory, e, heq, hllm, h⟩))
      · rename_i resp hllm
        split at h
        · rename_i hfalsy
          exact .inr (.inr (.inr (.inl ⟨hread', memory, resp, heq, hllm, hfalsy, h⟩)))
        · rename_i hfalsy
          have hfalsy' : toolCallsFalsy resp.tool_calls = false := by simpa using hfalsy
          split at h
          · rename_i htc
            exact .inr (.inr (.inr (.inr (.inl
              ⟨hread', memory, resp, heq, hllm, hfalsy', htc, h⟩))))
          · rename_i tcs htc
            split at h
            · rename_i e hph
              exact .inr (.inr (.inr (.inr (.inr (.inl
                ⟨hread', memory, resp, tcs, e, heq, hllm, hfalsy', htc, hph, h⟩)))))
            · rename_i u hph
              exact .inr (.inr (.inr (.inr (.inr (.inr
                ⟨hread', memory, resp, tcs, heq, hllm, hfalsy', htc, ⟨u, hph⟩, h⟩)))))

/-- When the cancellation flag first reads true at loop check `k`, a loop
entered at iteration `i ≤ k` whose run performs `k + 1 - i` checks exits
with the non-retryable cancellation error and has started exactly `k - i`
further LLM activities (none at or after check `k`). -/
theorem wfLoop_cancel_exit (env : WfEnv) (rid : String) (k : Nat)
    (hc : env.cancelFrom = some k) :
    ∀ fuel i, i ≤ k → (wfLoop env rid fuel i).2.2 = k + 1 - i →
      (wfLoop env rid fuel i).1 = .exc (.appError "Workflow cancelled via signal" true)
      ∧ ((wfLoop env rid fuel i).2.1.filter isLlm).length = k - i := by
  intro fuel
  induction fuel with
  | zero =>
    intro i hik hchecks
    simp [wfLoop] at hchecks
    omega
  | succ n ih =>
    intro i hik hchecks
    have hcr_le : ∀ j, env.cancelRead j = true → k ≤ j := by
      intro j hj
      unfold WfEnv.cancelRead at hj
      rw [hc] at hj
      exact of_decide_eq_true hj
    have hcr_ge : ∀ j, env.cancelRead j = false → j < k := by
      intro j hj
      by_contra hcon
      have : env.cancelRead j = true := by
        unfold WfEnv.cancelRead
        rw [hc]
        exact decide_eq_true (by omega)
      rw [this] at hj
      exact absurd hj (by simp)
    rcases wfLoop_succ_char env rid n i with
      ⟨hread, heq⟩ | ⟨hread, e, hmem, heq⟩ | ⟨hread, memory, e, hmem, hllm, heq⟩
      | ⟨hread, memory, resp, hmem, hllm, hfalsy, heq⟩
      | ⟨hread, memory, resp, hmem, hllm, hfalsy, htc, heq⟩
      | ⟨hread, memory, resp, tcs, e, hmem, hllm, hfalsy, htc, hph, heq⟩
      | ⟨hread, memory, resp, tcs, hmem, hllm, hfalsy, htc, hph, heq⟩
    · rw [heq]
      have hki : k ≤ i := hcr_le i hread
      refine ⟨rfl, ?_⟩
      simp
      omega
    · rw [heq] at hchecks
      have hlt := hcr_ge i hread
      simp at hchecks
      omega
    · rw [heq] at hchecks
      have hlt := hcr_ge i hread
      simp at hchecks
      omega
    · rw [heq] at hchecks
      have hlt := hcr_ge i hread
      simp at hchecks
      omega
    · rw [htc] at hfalsy
      simp [toolCallsFalsy] at hfalsy
    · rw [heq] at hchecks
      have hlt := hcr_ge i hread
      simp at hchecks
      omega
    · rw [heq] at hchecks ⊢
      have hlt := hcr_ge i hread
      have hnext : (wfLoop env rid n (i + 1)).2.2 = k + 1 - (i + 1) := by
        have hch : (wfLoop env rid n (i + 1)).2.2 + 1 = k + 1 - i := hchecks
        omega
      obtain ⟨hexit, hcount⟩ := ih (i + 1) (by omega) hnext
      refine ⟨hexit, ?_⟩
      rw [List.filter_append, List.filter_append]
      rw [toolPhase_no_llm]
      simp [isLlm, hcount]
      omega

/-- Branch characterisation of a whole workflow execution: one of the six
control paths of the run method applies. -/
theorem executeWorkflow_char (env : WfEnv) (input : AgentWorkflowInput) (fuel : Nat) :
    (env.parseUUID input.session_id = none
      ∧ executeWorkflow env input fuel
          = ⟨.exc (.appError "Invalid session_id UUID string" true), [], 0, "errored", none⟩)
    ∨ (∃ sid e, env.parseUUID input.session_id = some sid ∧ env.createRun = .error e
        ∧ executeWorkflow env input fuel
            = ⟨.exc (.activityError e), [.createRun], 0, "errored", some e⟩)
    ∨ (∃ sid rid e, env.parseUUID input.session_id = some sid ∧ env.createRun = .ok rid
        ∧ env.createRunStepUser = .error e
        ∧ executeWorkflow env input fuel
            = ⟨.exc (.activityError e),
               [.createRun, .createRunStep input.user_message]
                 ++ finalizeEnvelope env (some rid) "errored" (some e),
               0, "errored", some e⟩)
    ∨ (∃ sid rid out evs checks, env.parseUUID input.session_id = some sid
        ∧ env.createRun = .ok rid ∧ env.createRunStepUser = .ok ()
        ∧ wfLoop env rid fuel 0 = (.ret out, evs, checks)
        ∧ executeWorkflow env input fuel
            = ⟨.ret out,
               [.createRun, .createRunStep input.user_message] ++ evs
                 ++ finalizeEnvelope env (some rid) "completed" none,
               checks, "completed", none⟩)
    ∨ (∃ sid rid e evs checks, env.parseUUID input.session_id = some sid
        ∧ env.createRun = .ok rid ∧ env.createRunStepUser = .ok ()
        ∧ wfLoop env rid fuel 0 = (.exc e, evs, checks)
        ∧ executeWorkflow env input fuel
            = ⟨.exc e,
               [.createRun, .createRunStep input.user_message] ++ evs
                 ++ finalizeEnvelope env (some rid) (statusOfExc e).1 (statusOfExc e).2,
               checks, (statusOfExc e).1, (statusOfExc e).2⟩)
    ∨ (∃ sid rid evs checks, env.parseUUID input.session_id = some sid
        ∧ env.createRun = .ok rid ∧ env.createRunStepUser = .ok ()
        ∧ wfLoop env rid fuel 0 = (.fuelOut, evs, checks)
        ∧ executeWorkflow env input fuel
            = ⟨.fuelOut,
               [.createRun, .createRunStep input.user_message] ++ evs,
               checks, "errored", none⟩) := by
  have h : executeWorkflow env input fuel = executeWorkflow env input fuel := rfl
  nth_rewrite 2 [executeWorkflow] at h
  split at h
  · rename_i hp
    exact .inl ⟨hp, h⟩
  · rename_i sid hp
    split at h
    · rename_i e hcr
      exact .inr (.inl ⟨sid, e, hp, hcr, h⟩)
    · rename_i rid hcr
      split at h
      · rename_i e hcs
        exact .inr (.inr (.inl ⟨sid, rid, e, hp, hcr, hcs, h⟩))
      · rename_i u hcs
        split at h
        · rename_i out evs checks hwl
          exact .inr (.inr (.inr (.inl ⟨sid, rid, out, evs, checks, hp, hcr, hcs, hwl, h⟩)))
        · rename_i e evs checks hwl
          exact .inr (.inr (.inr (.inr (.inl
            ⟨sid, rid, e, evs, checks, hp, hcr, hcs, hwl, h⟩))))
        · rename_i evs checks hwl
          exact .inr (.inr (.inr (.inr (.inr
            ⟨sid, rid, evs, checks, hp, hcr, hcs, hwl, h⟩))))

/-- Claim C4: once the `request_cancellation` signal flag reads true at
loop-boundary check `k` (and the run reaches that check, i.e. performs
`k + 1` checks), the workflow raises the non-retryable cancellation
`ApplicationError`, whose lowered message contains "cancelled"; the final
status becomes "cancelled" with that error message; `FinalizeRun` is invoked
with status "cancelled"; and no LLM activity beyond the `k` already-started
ones is ever started. -/
theorem cancellation_signal_honoured (env : WfEnv) (input : AgentWorkflowInput)
    (fuel k : Nat) (hc : env.cancelFrom = some k)
    (hr : (executeWorkflow env input fuel).checksDone = k + 1) :
    ∃ rid, env.createRun = .ok rid
    ∧ (executeWorkflow env input fuel).outcome
        = .exc (.appError "Workflow cancelled via signal" true)
    ∧ containsSub (lowerString "Workflow cancelled via signal") "cancelled" = true
    ∧ (executeWorkflow env input fuel).finalStatus = "cancelled"
    ∧ (executeWorkflow env input fuel).errorMessage = some "Workflow cancelled via signal"
    ∧ Event.finalizeRun rid "cancelled" (some "Workflow cancelled via signal")
        ∈ (executeWorkflow env input fuel).trace
    ∧ ((executeWorkflow env input fuel).trace.filter isLlm).length ≤ k := by
  rcases executeWorkflow_char env input fuel with
    ⟨hp, heq⟩ | ⟨sid, e, hp, hcr, heq⟩ | ⟨sid, rid, e, hp, hcr, hcs, heq⟩
    | ⟨sid, rid, out, evs, checks, hp, hcr, hcs, hwl, heq⟩
    | ⟨sid, rid, e, evs, checks, hp, hcr, hcs, hwl, heq⟩
    | ⟨sid, rid, evs, checks, hp, hcr, hcs, hwl, heq⟩
  · rw [heq] at hr
    simp at hr
  · rw [heq] at hr
    simp at hr
  · rw [heq] at hr
    simp at hr
  · exfalso
    rw [heq] at hr
    have hr' : checks = k + 1 := hr
    have hchecks : (wfLoop env rid fuel 0).2.2 = k + 1 - 0 := by
      rw [hwl]
      simpa using hr'
    obtain ⟨hexit, _⟩ := wfLoop_cancel_exit env rid k hc fuel 0 (Nat.zero_le k) hchecks
    rw [hwl] at hexit
    simp at hexit
  · rw [heq] at hr
    have hr' : checks = k + 1 := hr
    have hchecks : (wfLoop env rid fuel 0).2.2 = k + 1 - 0 := by
      rw [hwl]
      simpa using hr'
    obtain ⟨hexit, hcount⟩ := wfLoop_cancel_exit env rid k hc fuel 0 (Nat.zero_le k) hchecks
    rw [hwl] at hexit hcount
    have he : e = .appError "Workflow cancelled via signal" true := by
      simpa using hexit
    subst he
    have hstat : statusOfExc (Exc.appError "Workflow cancelled via signal" true)
        = ("cancelled", some "Workflow cancelled via signal") := by decide
    have hevcount : (evs.filter isLlm).length = k := by
      simpa using hcount
    refine ⟨rid, hcr, ?_, by decide, ?_, ?_, ?_, ?_⟩
    · rw [heq]
    · rw [heq]
      simp [hstat]
    · rw [heq]
      simp [hstat]
    · rw [heq]
      simp only [hstat, finalizeEnvelope]
      simp
    · rw [heq]
      simp only [WfRun.trace]
      rw [List.filter_append, List.filter_append]
      simp [isLlm, finalizeEnvelope, hevcount]
  · exfalso
    rw [heq] at hr
    have hr' : checks = k + 1 := hr
    have hchecks : (wfLoop env rid fuel 0).2.2 = k + 1 - 0 := by
      rw [hwl]
      simpa using hr'
    obtain ⟨hexit, _⟩ := wfLoop_cancel_exit env rid k hc fuel 0 (Nat.zero_le k) hchecks
    rw [hwl] at hexit
    simp at hexit

/-- The healthy oracle with a cancellation signal arriving before loop
check 1 (i.e. after the first assistant turn dispatched its tool call). -/
def envWc : WfEnv := { envW with cancelFrom := some 1 }

/-! ## Claim C8 -/

theorem lookupA_setA_self {α : Type} (l : List (String × α)) (k : String) (v : α) :
    lookupA (setA l k v) k = some v := by
  induction l with
  | nil => simp [setA, lookupA]
  | cons p rest ih =>
    rcases p with ⟨k', v'⟩
    by_cases hk : k' = k
    · simp [setA, hk, lookupA]
    · simp [setA, hk, lookupA, ih]

theorem lookupA_setA_ne {α : Type} (l : List (String × α)) (k k' : String) (v : α)
    (h : k' ≠ k) : lookupA (setA l k v) k' = lookupA l k' := by
  induction l with
  | nil => simp [setA, lookupA, Ne.symm h]
  | cons p rest ih =>
    rcases p with ⟨k₀, v₀⟩
    by_cases hk : k₀ = k
    · subst hk
      simp [setA, lookupA, Ne.symm h]
    · simp only [setA, hk, if_false, lookupA]
      by_cases hk' : k₀ = k'
      · simp [hk']
      · simp [hk', ih]

theorem keys_setA_of_found {α : Type} (l : List (String × α)) (k : String) (v : α)
    (h : lookupA l k ≠ none) : (setA l k v).map Prod.fst = l.map Prod.fst := by
  induction l with
  | nil => exact absurd rfl h
  | cons p rest ih =>
    rcases p with ⟨k₀, v₀⟩
    by_cases hk : k₀ = k
    · simp [setA, hk]
    · simp only [lookupA, hk, if_false] at h
      simp [setA, hk, ih h]

theorem keys_setA_of_new {α : Type} (l : List (String × α)) (k : String) (v : α)
    (h : lookupA l k = none) : (setA l k v).map Prod.fst = l.map Prod.fst ++ [k] := by
  induction l with
  | nil => simp [setA]
  | cons p rest ih =>
    rcases p with ⟨k₀, v₀⟩
    by_cases hk : k₀ = k
    · simp [lookupA, hk] at h
    · simp only [lookupA, hk, if_false] at h
      simp [setA, hk, ih h]

theorem lookupA_none_iff_not_mem_keys {α : Type} (l : List (String × α)) (k : String) :
    lookupA l k = none ↔ k ∉ l.map Prod.fst := by
  induction l with
  | nil => simp [lookupA]
  | cons p rest ih =>
    rcases p with ⟨k₀, v₀⟩
    by_cases hk : k₀ = k
    · simp [lookupA, hk]
    · have hk' : k ≠ k₀ := Ne.symm hk
      simp [lookupA, hk, ih, hk']

/-- A null-id entry leaves the accumulator untouched. -/
theorem processToolCallDelta_nullId (st : AccState) (tc : ToolCallDelta)
    (h : tc.id = none) : processToolCallDelta st tc = st := by
  unfold processToolCallDelta
  rw [h]

theorem createIfAbsent_fc (st : AccState) (X : List String) (i : String) :
    createIfAbsent { st with full_content := X } i
      = { createIfAbsent st i with full_content := X } := by
  unfold createIfAbsent
  by_cases hnew : (lookupA st.tool_buffers i).isNone
  · rw [if_pos hnew, if_pos hnew]
  · rw [if_neg hnew, if_neg hnew]

/-- The tool-call processing never touches the text accumulator, so it
commutes with overriding `full_content`. -/
theorem processToolCallDelta_fc (st : AccState) (X : List String) (tc : ToolCallDelta) :
    processToolCallDelta { st with full_content := X } tc
      = { processToolCallDelta st tc with full_content := X } := by
  rcases tc with ⟨id?, fn?⟩
  cases id? with
  | none => rfl
  | some tcid =>
    cases fn? with
    | none =>
      show createIfAbsent { st with full_content := X } tcid
        = { processToolCallDelta st ⟨some tcid, none⟩ with full_content := X }
      rw [createIfAbsent_fc]
      rfl
    | some f =>
      show ({ createIfAbsent { st with full_content := X } tcid with
              tool_buffers := setA (createIfAbsent { st with full_content := X } tcid).tool_buffers tcid
                (updateBuffer
                  ((lookupA (createIfAbsent { st with full_content := X } tcid).tool_buffers
                      tcid).getD ⟨none, []⟩) f) } : AccState)
        = { processToolCallDelta st ⟨some tcid, some f⟩ with full_content := X }
      rw [createIfAbsent_fc]
      rfl

theorem foldTC_fc (entries : List ToolCallDelta) :
    ∀ (st : AccState) (X : List String),
      entries.foldl processToolCallDelta { st with full_content := X }
        = { entries.foldl processToolCallDelta st with full_content := X } := by
  induction entries with
  | nil => intro st X; rfl
  | cons tc rest ih =>
    intro st X
    rw [List.foldl_cons, List.foldl_cons, processToolCallDelta_fc, ih]

/-- One well-formed delta: record-level factorisation of `processDelta`. -/
theorem processDelta_char (st : AccState) (d : Delta) :
    processChunk st (.delta d)
      = { (d.tool_calls.getD []).foldl processToolCallDelta st with
          full_content := st.full_content ++ chunkFrag d } := by
  have hst1 : (match d.content with
               | some s => if s ≠ "" then { st with full_content := st.full_content ++ [s] }
                           else st
               | none => st)
      = { st with full_content := st.full_content ++ chunkFrag d } := by
    unfold chunkFrag
    cases hc : d.content with
    | none =>
      show st = { st with full_content := st.full_content ++ [] }
      simp
    | some s =>
      show (if s ≠ "" then { st with full_content := st.full_content ++ [s] } else st)
          = { st with full_content := st.full_content ++ (if s ≠ "" then [s] else []) }
      by_cases hs : s ≠ ""
      · rw [if_pos hs, if_pos hs]
      · rw [if_neg hs, if_neg hs]
        simp
  show processDelta st d = _
  show (match d.tool_calls with
        | some tcs => tcs.foldl processToolCallDelta
            (match d.content with
             | some s => if s ≠ "" then { st with full_content := st.full_content ++ [s] }
                         else st
             | none => st)
        | none => (match d.content with
                   | some s => if s ≠ "" then { st with full_content := st.full_content ++ [s] }
                               else st
                   | none => st)) = _
  rw [hst1]
  cases htc : d.tool_calls with
  | none => rfl
  | some tcs =>
    show tcs.foldl processToolCallDelta
        { st with full_content := st.full_content ++ chunkFrag d } = _
    rw [foldTC_fc]
    rfl

/-- The stream fold factors componentwise: `full_content` accumulates the
text fragments, and the tool buffers and order are the fold of
`processToolCallDelta` over the flattened `tool_calls` entries. -/
theorem fold_chunks_proj (stream : List Chunk) :
    ∀ st : AccState,
      (stream.foldl processChunk st).full_content
          = st.full_content ++ contentFragments stream
      ∧ (stream.foldl processChunk st).tool_buffers
          = ((tcEntriesOf stream).foldl processToolCallDelta st).tool_buffers
      ∧ (stream.foldl processChunk st).tool_call_order
          = ((tcEntriesOf stream).foldl processToolCallDelta st).tool_call_order := by
  induction stream with
  | nil =>
    intro st
    refine ⟨by simp [contentFragments], rfl, rfl⟩
  | cons c rest ih =>
    intro st
    cases c with
    | malformed =>
      rw [List.foldl_cons]
      exact ih st
    | delta d =>
      rw [List.foldl_cons]
      obtain ⟨ihf, ihb, iho⟩ := ih (processChunk st (.delta d))
      have hstep := processDelta_char st d
      have hent : tcEntriesOf (Chunk.delta d :: rest)
          = d.tool_calls.getD [] ++ tcEntriesOf rest := rfl
      refine ⟨?_, ?_, ?_⟩
      · rw [ihf, hstep]
        show (st.full_content ++ chunkFrag d) ++ contentFragments rest
            = st.full_content ++ contentFragments (Chunk.delta d :: rest)
        show (st.full_content ++ chunkFrag d) ++ contentFragments rest
            = st.full_content ++ (chunkFrag d ++ contentFragments rest)
        rw [List.append_assoc]
      · rw [ihb, hstep, foldTC_fc]
        show ((tcEntriesOf rest).foldl processToolCallDelta
              ((d.tool_calls.getD []).foldl processToolCallDelta st)).tool_buffers = _
        rw [hent, List.foldl_append]
      · rw [iho, hstep, foldTC_fc]
        show ((tcEntriesOf rest).foldl processToolCallDelta
              ((d.tool_calls.getD []).foldl processToolCallDelta st)).tool_call_order = _
        rw [hent, List.foldl_append]

theorem createIfAbsent_lookup_self (st : AccState) (i : String) :
    lookupA (createIfAbsent st i).tool_buffers i
      = some ((lookupA st.tool_buffers i).getD ⟨none, []⟩) := by
  unfold createIfAbsent
  cases hl : lookupA st.tool_buffers i with
  | none =>
    rw [if_pos (by rfl)]
    show lookupA (setA st.tool_buffers i ⟨none, []⟩) i = _
    rw [lookupA_setA_self]
    rfl
  | some buf =>
    rw [if_neg (by simp)]
    rw [hl]
    rfl

theorem createIfAbsent_lookup_ne (st : AccState) (i tid : String) (h : tid ≠ i) :
    lookupA (createIfAbsent st i).tool_buffers tid = lookupA st.tool_buffers tid := by
  unfold createIfAbsent
  by_cases hnew : (lookupA st.tool_buffers i).isNone
  · rw [if_pos hnew]
    show lookupA (setA st.tool_buffers i ⟨none, []⟩) tid = _
    rw [lookupA_setA_ne _ _ _ _ h]
  · rw [if_neg hnew]

theorem createIfAbsent_order (st : AccState) (i : String)
    (hinv : st.tool_buffers.map Prod.fst = st.tool_call_order) :
    (createIfAbsent st i).tool_call_order
        = (if i ∈ st.tool_call_order then st.tool_call_order
           else st.tool_call_order ++ [i])
    ∧ (createIfAbsent st i).tool_buffers.map Prod.fst
        = (createIfAbsent st i).tool_call_order := by
  have hmemiff : lookupA st.tool_buffers i = none ↔ i ∉ st.tool_call_order := by
    rw [lookupA_none_iff_not_mem_keys, hinv]
  unfold createIfAbsent
  by_cases hnew : (lookupA st.tool_buffers i).isNone
  · have hnone : lookupA st.tool_buffers i = none := by
      cases hl : lookupA st.tool_buffers i
      · rfl
      · rw [hl] at hnew; simp at hnew
    have hnotmem : i ∉ st.tool_call_order := hmemiff.mp hnone
    rw [if_pos hnew, if_neg hnotmem]
    refine ⟨rfl, ?_⟩
    show (setA st.tool_buffers i ⟨none, []⟩).map Prod.fst = st.tool_call_order ++ [i]
    rw [keys_setA_of_new st.tool_buffers i _ hnone, hinv]
  · have hsome : lookupA st.tool_buffers i ≠ none := by
      intro hcon
      rw [hcon] at hnew
      simp at hnew
    have hmem : i ∈ st.tool_call_order := by
      by_contra hcon
      exact hsome (hmemiff.mpr hcon)
    rw [if_neg hnew, if_pos hmem]
    exact ⟨rfl, hinv⟩

/-- One entry's effect on `_tool_call_order` and on the buffer keys: a
non-null id is appended exactly when unseen, and the keys always track the
order list. -/
theorem processToolCallDelta_order (st : AccState) (i : String) (fn? : Option FunctionDelta)
    (hinv : st.tool_buffers.map Prod.fst = st.tool_call_order) :
    (processToolCallDelta st ⟨some i, fn?⟩).tool_call_order
        = (if i ∈ st.tool_call_order then st.tool_call_order
           else st.tool_call_order ++ [i])
    ∧ (processToolCallDelta st ⟨some i, fn?⟩).tool_buffers.map Prod.fst
        = (processToolCallDelta st ⟨some i, fn?⟩).tool_call_order := by
  obtain ⟨ho, hk⟩ := createIfAbsent_order st i hinv
  cases fn? with
  | none => exact ⟨ho, hk⟩
  | some f =>
    have hfound : lookupA (createIfAbsent st i).tool_buffers i ≠ none := by
      rw [createIfAbsent_lookup_self]
      simp
    refine ⟨ho, ?_⟩
    show (setA (createIfAbsent st i).tool_buffers i _).map Prod.fst
        = (createIfAbsent st i).tool_call_order
    rw [keys_setA_of_found _ _ _ hfound, hk]

/-- The fold over the entries realises the first-seen-order id list. -/
theorem foldTC_order (entries : List ToolCallDelta) :
    ∀ st : AccState, st.tool_buffers.map Prod.fst = st.tool_call_order →
      (entries.foldl processToolCallDelta st).tool_call_order
          = seenIdsFrom st.tool_call_order entries
      ∧ (entries.foldl processToolCallDelta st).tool_buffers.map Prod.fst
          = (entries.foldl processToolCallDelta st).tool_call_order := by
  induction entries with
  | nil => intro st hinv; exact ⟨rfl, hinv⟩
  | cons tc rest ih =>
    intro st hinv
    rw [List.foldl_cons]
    rcases tc with ⟨id?, fn?⟩
    cases id? with
    | none =>
      rw [processToolCallDelta_nullId st _ rfl]
      exact ih st hinv
    | some i =>
      obtain ⟨ho, hk⟩ := processToolCallDelta_order st i fn? hinv
      obtain ⟨h1, h2⟩ := ih (processToolCallDelta st ⟨some i, fn?⟩) hk
      refine ⟨?_, h2⟩
      rw [h1, ho]
      rfl

/-- The argument-fragment list recorded for one id. -/
def bufArgs (buffers : List (String × ToolBuffer)) (tid : String) : List String :=
  ((lookupA buffers tid).getD ⟨none, []⟩).arguments

theorem nameUpdate_args (buf : ToolBuffer) (fn : Option String) :
    (nameUpdate buf fn).arguments = buf.arguments := by
  cases fn with
  | none => rfl
  | some n =>
    show (if n ≠ "" then ({ buf with name := some n } : ToolBuffer) else buf).arguments
        = buf.arguments
    by_cases hn : n ≠ ""
    · rw [if_pos hn]
    · rw [if_neg hn]

/-- The fragments one `function` payload appends to a buffer. -/
def funcArgFragments (func : FunctionDelta) : List String :=
  match func.arguments with
  | some a => [a]
  | none => []

theorem updateBuffer_args (buf : ToolBuffer) (func : FunctionDelta) :
    (updateBuffer buf func).arguments = buf.arguments ++ funcArgFragments func := by
  unfold updateBuffer funcArgFragments
  cases ha : func.arguments with
  | none =>
    rw [nameUpdate_args]
    simp
  | some a =>
    show (nameUpdate buf func.name).arguments ++ [a] = buf.arguments ++ [a]
    rw [nameUpdate_args]

theorem entryArgFragments_self (i : String) (fn? : Option FunctionDelta) :
    entryArgFragments i ⟨some i, fn?⟩
      = (match fn? with
         | some f => funcArgFragments f
         | none => []) := by
  unfold entryArgFragments funcArgFragments
  simp

theorem entryArgFragments_ne (i tid : String) (fn? : Option FunctionDelta)
    (h : i ≠ tid) : entryArgFragments tid ⟨some i, fn?⟩ = [] := by
  unfold entryArgFragments
  simp [h]

theorem createIfAbsent_bufArgs (st : AccState) (i tid : String) :
    bufArgs (createIfAbsent st i).tool_buffers tid = bufArgs st.tool_buffers tid := by
  by_cases hit : tid = i
  · subst hit
    unfold bufArgs
    rw [createIfAbsent_lookup_self]
    cases hl : lookupA st.tool_buffers tid with
    | none => rfl
    | some buf => rfl
  · unfold bufArgs
    rw [createIfAbsent_lookup_ne st i tid hit]

/-- One entry's effect on the recorded argument fragments of id `tid`. -/
theorem processToolCallDelta_args (st : AccState) (tc : ToolCallDelta) (tid : String) :
    bufArgs (processToolCallDelta st tc).tool_buffers tid
      = bufArgs st.tool_buffers tid ++ entryArgFragments tid tc := by
  rcases tc with ⟨id?, fn?⟩
  cases id? with
  | none =>
    rw [processToolCallDelta_nullId st _ rfl]
    show bufArgs st.tool_buffers tid = bufArgs st.tool_buffers tid ++ []
    simp
  | some i =>
    cases fn? with
    | none =>
      show bufArgs (createIfAbsent st i).tool_buffers tid
          = bufArgs st.tool_buffers tid ++ entryArgFragments tid ⟨some i, none⟩
      rw [createIfAbsent_bufArgs]
      by_cases hit : i = tid
      · subst hit
        rw [entryArgFragments_self]
        simp
      · rw [entryArgFragments_ne _ _ _ hit]
        simp
    | some f =>
      show bufArgs (setA (createIfAbsent st i).tool_buffers i
            (updateBuffer
              ((lookupA (createIfAbsent st i).tool_buffers i).getD ⟨none, []⟩) f)) tid
          = bufArgs st.tool_buffers tid ++ entryArgFragments tid ⟨some i, some f⟩
      by_cases hit : i = tid
      · subst hit
        unfold bufArgs
        rw [lookupA_setA_self]
        show (updateBuffer ((lookupA (createIfAbsent st i).tool_buffers i).getD ⟨none, []⟩)
              f).arguments = _
        rw [updateBuffer_args, createIfAbsent_lookup_self]
        rw [entryArgFragments_self]
        show ((lookupA st.tool_buffers i).getD ⟨none, []⟩).arguments ++ funcArgFragments f
            = bufArgs st.tool_buffers i ++ funcArgFragments f
        rfl
      · have hne : tid ≠ i := Ne.symm hit
        unfold bufArgs
        rw [lookupA_setA_ne _ _ _ _ hne]
        rw [show lookupA (createIfAbsent st i).tool_buffers tid = lookupA st.tool_buffers tid
             from createIfAbsent_lookup_ne st i tid hne]
        rw [entryArgFragments_ne _ _ _ hit]
        simp

/-- The fold over the entries appends exactly the arrival-ordered argument
fragments of each id. -/
theorem foldTC_args (entries : List ToolCallDelta) :
    ∀ (st : AccState) (tid : String),
      bufArgs (entries.foldl processToolCallDelta st).tool_buffers tid
        = bufArgs st.tool_buffers tid ++ argFragments tid entries := by
  induction entries with
  | nil => intro st tid; simp [argFragments]
  | cons tc rest ih =>
    intro st tid
    rw [List.foldl_cons, ih, processToolCallDelta_args]
    show _ = bufArgs st.tool_buffers tid ++ (entryArgFragments tid tc ++ argFragments tid rest)
    rw [List.append_assoc]

theorem ToolCall.validate_inv (id : String) (name : Option String) (args : Json)
    (tc : ToolCall) (h : ToolCall.validate id name args = some tc) :
    tc.id = id ∧ Json.obj tc.arguments = args := by
  unfold ToolCall.validate at h
  cases name with
  | none => exact absurd h (by cases args <;> simp)
  | some n =>
    cases args with
    | obj fields =>
      have hh := Option.some.inj h
      rw [← hh]
      exact ⟨rfl, rfl⟩
    | null => exact absurd h (by simp)
    | bool b => exact absurd h (by simp)
    | num m => exact absurd h (by simp)
    | str s => exact absurd h (by simp)
    | arr xs => exact absurd h (by simp)

theorem buildToolCallList_spec (loads : String → Option Json)
    (buffers : List (String × ToolBuffer)) :
    ∀ (ids : List String) (tcs : List ToolCall),
      buildToolCallList loads buffers ids = some tcs →
      tcs.map ToolCall.id = ids
      ∧ ∀ tc ∈ tcs, Json.obj tc.arguments
          = finalArguments loads (String.join (bufArgs buffers tc.id)) := by
  intro ids
  induction ids with
  | nil =>
    intro tcs h
    have hh : ([] : List ToolCall) = tcs := Option.some.inj h
    rw [← hh]
    exact ⟨rfl, by simp⟩
  | cons tid rest ih =>
    intro tcs h
    unfold buildToolCallList at h
    split at h
    · exact absurd h (by simp)
    · rename_i tc hv
      split at h
      · exact absurd h (by simp)
      · rename_i tcs' hrec
        have hh : tc :: tcs' = tcs := Option.some.inj h
        obtain ⟨hmap, hargs⟩ := ih tcs' hrec
        obtain ⟨hid, hargval⟩ := ToolCall.validate_inv _ _ _ tc hv
        rw [← hh]
        constructor
        · rw [List.map_cons, hmap, hid]
        · intro tc' htc'
          rcases List.mem_cons.mp htc' with h' | h'
          · subst h'
            rw [hargval]
            show finalArguments loads
                  (String.join ((lookupA buffers tid).getD ⟨none, []⟩).arguments) = _
            rw [hid]
            rfl
          · exact hargs tc' h'

theorem llm_activity_ok_message (loads : String → Option Json) (rid : String)
    (stream : List Chunk) (log : List (String × Message)) (msg : Message)
    (log' : List (String × Message))
    (h : llm_activity loads true rid stream log = .ok (msg, log')) :
    finalMessageOf loads (stream.foldl processChunk initAcc) = some msg := by
  unfold llm_activity at h
  cases hfm : finalMessageOf loads (stream.foldl processChunk initAcc) with
  | none => rw [hfm] at h; exact absurd h (by simp)
  | some fm =>
    rw [hfm] at h
    simp only [if_true] at h
    have hh := Except.ok.inj h
    exact congrArg (fun p => some p.1) hh

theorem finalMessageOf_inv (loads : String → Option Json) (st : AccState) (msg : Message)
    (h : finalMessageOf loads st = some msg) :
    msg.content = (if st.full_content.isEmpty then none
                   else some (String.join st.full_content))
    ∧ (st.tool_buffers.isEmpty = true → msg.tool_calls = none)
    ∧ (st.tool_buffers.isEmpty = false →
        ∃ tcs, msg.tool_calls = some tcs
          ∧ buildToolCallList loads st.tool_buffers st.tool_call_order = some tcs) := by
  unfold finalMessageOf toolCallsFinal at h
  by_cases hb : st.tool_buffers.isEmpty
  · rw [if_pos hb] at h
    have hh := Option.some.inj h
    rw [← hh]
    refine ⟨rfl, fun _ => rfl, fun hcon => ?_⟩
    rw [hb] at hcon
    exact absurd hcon (by simp)
  · rw [if_neg hb] at h
    cases hbl : buildToolCallList loads st.tool_buffers st.tool_call_order with
    | none => rw [hbl] at h; exact absurd h (by simp)
    | some tcs =>
      rw [hbl] at h
      have hh := Option.some.inj h
      rw [← hh]
      exact ⟨rfl, fun hcon => absurd hcon hb, fun _ => ⟨tcs, rfl, rfl⟩⟩

/-- Claim C8 as stated: the concatenated argument string of every buffered
tool-call id is parsed as JSON, with a parse failure retaining the raw
string under the sentinel key — universally, including the empty
concatenation (`json.loads` rejects the empty document, reflected by the
`loads "" = none` premise). -/
def LlmArgumentsParseClaim : Prop :=
  ∀ loads : String → Option Json, loads "" = none →
    ∀ (rid : String) (stream : List Chunk) (log : List (String × Message))
      (msg : Message) (log' : List (String × Message)) (tcs : List ToolCall),
      llm_activity loads true rid stream log = .ok (msg, log') →
      msg.tool_calls = some tcs →
      ∀ tc ∈ tcs,
        Json.obj tc.arguments
          = (match loads (String.join (argFragments tc.id (tcEntriesOf stream))) with
             | some v => v
             | none => Json.obj [("raw",
                 Json.str (String.join (argFragments tc.id (tcEntriesOf stream))))])

/-- A stream whose single tool-call delta carries a name but no argument
fragments, so the buffered argument string is empty. -/
def noArgStream : List Chunk :=
  [.delta { tool_calls := some [{ id := some "t1", function := some { name := some "f" } }] }]

def noArgMessage : Message :=
  { role := .assistant, content := none,
    tool_calls := some [{ id := "t1", name := "f", arguments := [] }] }

/-- Claim C8 counterexample: for a buffered id with an empty concatenated
argument string the code takes the `if raw_args` falsy branch
(llm_activities.py line 153) and yields `{}` without attempting a JSON
parse, whereas the claim's prescription yields the sentinel
`{"raw": ""}` because the empty string is not valid JSON. -/
theorem llm_empty_arguments_not_parsed : ¬ LlmArgumentsParseClaim := by
  intro hclaim
  have h := hclaim loads0 rfl "r" noArgStream [] noArgMessage [("r", noArgMessage)]
    [{ id := "t1", name := "f", arguments := [] }] rfl rfl
    { id := "t1", name := "f", arguments := [] } (by simp)
  rw [show (match loads0 (String.join (argFragments
        (ToolCall.id { id := "t1", name := "f", arguments := [] })
        (tcEntriesOf noArgStream))) with
      | some v => v
      | none => Json.obj [("raw", Json.str (String.join (argFragments
          (ToolCall.id { id := "t1", name := "f", arguments := [] })
          (tcEntriesOf noArgStream))))])
      = Json.obj [("raw", Json.str "")] from rfl] at h
  exact absurd h (by simp)

/-- Claim C8 (amended): the accumulator tracks tool-call buffers in
first-seen id order with argument fragments appended in arrival order; the
final message carries one tool call per buffered id, in that order, whose
arguments value is the JSON parse of the concatenated fragment string when
the string is non-empty, the sentinel `{"raw": ...}` object on parse
failure, and the empty object `{}` when no fragment arrived (the code skips
the parse for an empty string); the message content is the concatenation of
the truthy text fragments and is null when none arrived. -/
theorem llm_stream_accumulation_characterised
    (loads : String → Option Json) (rid : String) (stream : List Chunk)
    (log : List (String × Message)) (msg : Message) (log' : List (String × Message))
    (h : llm_activity loads true rid stream log = .ok (msg, log')) :
    msg.content = (if contentFragments stream = [] then none
                   else some (String.join (contentFragments stream)))
    ∧ (stream.foldl processChunk initAcc).tool_call_order
        = seenIdsFrom [] (tcEntriesOf stream)
    ∧ ((stream.foldl processChunk initAcc).tool_buffers = [] → msg.tool_calls = none)
    ∧ ((stream.foldl processChunk initAcc).tool_buffers ≠ [] →
        ∃ tcs, msg.tool_calls = some tcs
          ∧ tcs.map ToolCall.id = seenIdsFrom [] (tcEntriesOf stream)
          ∧ ∀ tc ∈ tcs, Json.obj tc.arguments
              = finalArguments loads
                  (String.join (argFragments tc.id (tcEntriesOf stream)))) := by
  obtain ⟨hfc, hbuf, hord⟩ := fold_chunks_proj stream initAcc
  have hfc' : (stream.foldl processChunk initAcc).full_content
      = contentFragments stream := by simpa using hfc
  obtain ⟨hseen, _⟩ := foldTC_order (tcEntriesOf stream) initAcc rfl
  have horder : (stream.foldl processChunk initAcc).tool_call_order
      = seenIdsFrom [] (tcEntriesOf stream) := hord.trans hseen
  have hargs : ∀ tid, bufArgs (stream.foldl processChunk initAcc).tool_buffers tid
      = argFragments tid (tcEntriesOf stream) := by
    intro tid
    rw [hbuf, foldTC_args]
    show bufArgs ([] : List (String × ToolBuffer)) tid ++ _ = _
    show (((none : Option ToolBuffer)).getD ⟨none, []⟩).arguments ++ _ = _
    simp
  have hfm := llm_activity_ok_message loads rid stream log msg log' h
  obtain ⟨hcontent, hempty, hnonempty⟩ := finalMessageOf_inv loads _ msg hfm
  refine ⟨?_, horder, ?_, ?_⟩
  · rw [hcontent, hfc']
    by_cases hc : contentFragments stream = []
    · rw [if_pos hc, hc]
      rfl
    · rw [if_neg hc, if_neg ?_]
      intro hcon
      exact hc (List.isEmpty_iff.mp hcon)
  · intro hb
    exact hempty (by rw [hb]; rfl)
  · intro hb
    have hbfalse : (stream.foldl processChunk initAcc).tool_buffers.isEmpty = false := by
      cases hl : (stream.foldl processChunk initAcc).tool_buffers with
      | nil => exact absurd hl hb
      | cons p rest => rfl
    obtain ⟨tcs, htcs, hbl⟩ := hnonempty hbfalse
    obtain ⟨hmap, hargvals⟩ := buildToolCallList_spec loads _ _ tcs hbl
    refine ⟨tcs, htcs, ?_, ?_⟩
    · rw [hmap, horder]
    · intro tc htc
      rw [hargvals tc htc, hargs tc.id]

/-- Concrete witness for the C8 amended theorem. -/
theorem llm_stream_accumulation_characterised_witness :
    llm_activity loads0 true "run-c" noArgStream []
      = .ok (noArgMessage, [("run-c", noArgMessage)])
    ∧ (noArgMessage.content
        = (if contentFragments noArgStream = [] then none
           else some (String.join (contentFragments noArgStream)))
      ∧ (noArgStream.foldl processChunk initAcc).tool_call_order
          = seenIdsFrom [] (tcEntriesOf noArgStream)
      ∧ ((noArgStream.foldl processChunk initAcc).tool_buffers = [] →
          noArgMessage.tool_calls = none)
      ∧ ((noArgStream.foldl processChunk initAcc).tool_buffers ≠ [] →
          ∃ tcs, noArgMessage.tool_calls = some tcs
            ∧ tcs.map ToolCall.id = seenIdsFrom [] (tcEntriesOf noArgStream)
            ∧ ∀ tc ∈ tcs, Json.obj tc.arguments
                = finalArguments loads0
                    (String.join (argFragments tc.id (tcEntriesOf noArgStream))))) :=
  ⟨rfl, llm_stream_accumulation_characterised loads0 "run-c" noArgStream []
          noArgMessage [("run-c", noArgMessage)] rfl⟩

/-- Concrete witness for the C4 theorem. -/
theorem cancellation_signal_honoured_witness :
    ∃ rid, envWc.createRun = .ok rid
    ∧ (executeWorkflow envWc inputW 5).outcome
        = .exc (.appError "Workflow cancelled via signal" true)
    ∧ containsSub (lowerString "Workflow cancelled via signal") "cancelled" = true
    ∧ (executeWorkflow envWc inputW 5).finalStatus = "cancelled"
    ∧ (executeWorkflow envWc inputW 5).errorMessage = some "Workflow cancelled via signal"
    ∧ Event.finalizeRun rid "cancelled" (some "Workflow cancelled via signal")
        ∈ (executeWorkflow envWc inputW 5).trace
    ∧ ((executeWorkflow envWc inputW 5).trace.filter isLlm).length ≤ 1 :=
  cancellation_signal_honoured envWc inputW 5 1 rfl rfl

end Truss
